import Mathlib

/-!
Verification of the astorion temporal-expression parser.

This file is a shallow embedding, in Lean 4, of the parts of the astorion
source that the verified properties talk about:

* a model of `chrono`'s `NaiveDate` / `NaiveDateTime` (proleptic Gregorian
  calendar, naive local time, whole seconds) together with the calendar
  arithmetic the source uses (`succ_opt`, `pred_opt`, `Duration` addition,
  month arithmetic with end-of-month clamping);
* the time algebra `TimeExpr` / `TimeValue` from `src/time_expr.rs` and the
  normalizer from `src/rules/time/normalize.rs` with its helpers
  (`src/rules/time/helpers/shift.rs`, `boundaries.rs`);
* the engine's resolver / subsumption filter and the saturation loop from
  `src/engine/parser.rs`, with regex matching and rule productions kept
  abstract (they are external collaborators of the verified core).

Machine integers of the source (`i32`, `u32`, `i64`, `usize`) are modelled as
unbounded `Int` / `Nat`; `chrono`'s datetime range limits are idealized away
(its `checked_*` operations are total here), which is noted at the few places
where it matters.
-/

namespace Astorion

/-! ### Calendar model (chrono `NaiveDate`, `NaiveDateTime`)

A `Date` is a plain record; `chrono` guarantees validity by construction,
which we express by the `Date.Valid` predicate and carry as a hypothesis
where a theorem needs it. -/

structure Date where
  year : Int
  month : Nat
  day : Nat
  deriving DecidableEq, Repr

/-- Proleptic Gregorian leap-year rule (as used by chrono). -/
def isLeapYear (y : Int) : Bool :=
  (y % 4 == 0 && y % 100 != 0) || y % 400 == 0

/-- Number of days in a month of the proleptic Gregorian calendar.
Implements the lookup that `days_in_month` in `helpers/shift.rs` computes via
first-of-next-month minus one day (the two agree on months 1..=12, the only
arguments the source ever passes). Out-of-range months get 0 days. -/
def daysInMonth (y : Int) (m : Nat) : Nat :=
  match m with
  | 1 => 31
  | 2 => if isLeapYear y then 29 else 28
  | 3 => 31
  | 4 => 30
  | 5 => 31
  | 6 => 30
  | 7 => 31
  | 8 => 31
  | 9 => 30
  | 10 => 31
  | 11 => 30
  | 12 => 31
  | _ => 0

def Date.Valid (d : Date) : Prop :=
  1 ≤ d.month ∧ d.month ≤ 12 ∧ 1 ≤ d.day ∧ d.day ≤ daysInMonth d.year d.month

instance (d : Date) : Decidable d.Valid := by
  unfold Date.Valid; exact inferInstance

/-- `chrono::NaiveDate::from_ymd_opt`. -/
def fromYmd? (y : Int) (m d : Nat) : Option Date :=
  if (Date.mk y m d).Valid then some ⟨y, m, d⟩ else none

/-- Calendar (lexicographic) strict order on dates; agrees with chrono's
`Ord` on valid dates. -/
def Date.lt (a b : Date) : Prop :=
  a.year < b.year ∨ (a.year = b.year ∧
    (a.month < b.month ∨ (a.month = b.month ∧ a.day < b.day)))

instance : LT Date := ⟨Date.lt⟩

instance (a b : Date) : Decidable (a < b) := by
  change Decidable (Date.lt a b); unfold Date.lt; exact inferInstance

def Date.le (a b : Date) : Prop := a < b ∨ a = b

instance : LE Date := ⟨Date.le⟩

instance (a b : Date) : Decidable (a ≤ b) := by
  change Decidable (Date.le a b); unfold Date.le; exact inferInstance

/-- `chrono::NaiveDate::succ_opt` (total here: no upper range limit). -/
def Date.succ (d : Date) : Date :=
  if d.day < daysInMonth d.year d.month then ⟨d.year, d.month, d.day + 1⟩
  else if d.month < 12 then ⟨d.year, d.month + 1, 1⟩
  else ⟨d.year + 1, 1, 1⟩

/-- `chrono::NaiveDate::pred_opt` (total here: no lower range limit). -/
def Date.pred (d : Date) : Date :=
  if 1 < d.day then ⟨d.year, d.month, d.day - 1⟩
  else if 1 < d.month then ⟨d.year, d.month - 1, daysInMonth d.year (d.month - 1)⟩
  else ⟨d.year - 1, 12, 31⟩

/-- Adding a (signed) number of days to a date: chrono's
`date + Duration::days(k)`. -/
def Date.addDays (d : Date) (k : Int) : Date :=
  if 0 ≤ k then Date.succ^[k.toNat] d else Date.pred^[(-k).toNat] d

/-- Days counted from the first day of the year to the first day of month `m`
(0 for January). -/
def daysBeforeMonth (y : Int) (m : Nat) : Nat :=
  (match m with
   | 1 => 0
   | 2 => 31
   | 3 => 59
   | 4 => 90
   | 5 => 120
   | 6 => 151
   | 7 => 181
   | 8 => 212
   | 9 => 243
   | 10 => 273
   | 11 => 304
   | 12 => 334
   | _ => 365) + (if 3 ≤ m ∧ isLeapYear y then 1 else 0)

/-- Linear day number of a date in the proleptic Gregorian calendar
(0 for 0001-01-01).  Differences of `dayNumber` are what chrono's
`NaiveDate` subtraction (`num_days`) returns. -/
def Date.dayNumber (d : Date) : Int :=
  365 * (d.year - 1) + (d.year - 1) / 4 - (d.year - 1) / 100 + (d.year - 1) / 400
    + daysBeforeMonth d.year d.month + ((d.day : Int) - 1)

inductive Weekday where
  | mon | tue | wed | thu | fri | sat | sun
  deriving DecidableEq, Repr

/-- `chrono::Weekday::num_days_from_monday`. -/
def Weekday.numDaysFromMonday : Weekday → Nat
  | .mon => 0 | .tue => 1 | .wed => 2 | .thu => 3 | .fri => 4 | .sat => 5 | .sun => 6

/-- `chrono::Weekday::num_days_from_sunday`. -/
def Weekday.numDaysFromSunday : Weekday → Nat
  | .sun => 0 | .mon => 1 | .tue => 2 | .wed => 3 | .thu => 4 | .fri => 5 | .sat => 6

def weekdayOfNum (n : Nat) : Weekday :=
  match n with
  | 0 => .mon | 1 => .tue | 2 => .wed | 3 => .thu | 4 => .fri | 5 => .sat | _ => .sun

/-- Weekday of a date (0001-01-01 of the proleptic Gregorian calendar is a
Monday). -/
def Date.weekday (d : Date) : Weekday :=
  weekdayOfNum (d.dayNumber % 7).toNat

/-! A `DateTime` models `chrono::NaiveDateTime`: a date and a number of
seconds into the day (`chrono`'s sub-second precision is unused by the
engine, which only ever builds whole-second times). -/

structure DateTime where
  date : Date
  secs : Int
  deriving DecidableEq, Repr

def DateTime.Valid (dt : DateTime) : Prop :=
  dt.date.Valid ∧ 0 ≤ dt.secs ∧ dt.secs < 86400

instance (dt : DateTime) : Decidable dt.Valid := by
  unfold DateTime.Valid; exact inferInstance

def DateTime.lt (a b : DateTime) : Prop :=
  a.date < b.date ∨ (a.date = b.date ∧ a.secs < b.secs)

instance : LT DateTime := ⟨DateTime.lt⟩

instance (a b : DateTime) : Decidable (a < b) := by
  change Decidable (DateTime.lt a b); unfold DateTime.lt; exact inferInstance

def DateTime.le (a b : DateTime) : Prop := a < b ∨ a = b

instance : LE DateTime := ⟨DateTime.le⟩

instance (a b : DateTime) : Decidable (a ≤ b) := by
  change Decidable (DateTime.le a b); unfold DateTime.le; exact inferInstance

/-- `chrono::NaiveTime::from_hms_opt` (seconds into the day). -/
def fromHms? (h m s : Nat) : Option Int :=
  if h < 24 ∧ m < 60 ∧ s < 60 then some ((h : Int) * 3600 + m * 60 + s) else none

def DateTime.hour (dt : DateTime) : Int := dt.secs / 3600
def DateTime.minute (dt : DateTime) : Int := dt.secs / 60 % 60
def DateTime.second (dt : DateTime) : Int := dt.secs % 60

/-- `NaiveDate::and_time` / `NaiveDateTime::new`. -/
def Date.andTime (d : Date) (s : Int) : DateTime := ⟨d, s⟩

def Date.atMidnight (d : Date) : DateTime := ⟨d, 0⟩

/-- `NaiveDateTime + Duration::seconds(k)`: timeline addition, renormalizing
the seconds-of-day into `[0, 86400)` and moving the date accordingly. -/
def DateTime.addSecs (dt : DateTime) (k : Int) : DateTime :=
  let total := dt.secs + k
  ⟨dt.date.addDays (total / 86400), total % 86400⟩

/-- Timeline position in seconds; differences of `tlSecs` are what
`chrono::NaiveDateTime` subtraction returns (for valid datetimes). -/
def DateTime.tlSecs (dt : DateTime) : Int := dt.date.dayNumber * 86400 + dt.secs

end Astorion

namespace Astorion

/-! ### Grains and grain arithmetic (`src/time_expr.rs`, `helpers/shift.rs`) -/

inductive Grain where
  | Second | Minute | Hour | Day | Week | Month | Quarter | Year
  deriving DecidableEq, Repr

/-- The `(year, month)` that `add_months` (`helpers/shift.rs`) moves to: its
Euclidean zero-based-month computation. -/
def monthShiftTarget (dt : DateTime) (months : Int) : Int × Nat :=
  let base_year := dt.date.year
  let base_month : Int := dt.date.month
  let zero_based := base_month - 1 + months
  (base_year + zero_based / 12, (zero_based % 12 + 1).toNat)

/-- Does `add_months dt months` clamp the day of month?  (`day` survives
unchanged exactly when it does not exceed the target month's length.) -/
def noDayClamp (dt : DateTime) (months : Int) : Prop :=
  dt.date.day ≤ daysInMonth (monthShiftTarget dt months).1 (monthShiftTarget dt months).2

instance (dt : DateTime) (months : Int) : Decidable (noDayClamp dt months) := by
  unfold noDayClamp; exact inferInstance

/-- `add_months` from `helpers/shift.rs`: month arithmetic with end-of-month
day clamping; falls back to the original date when the clamped day is invalid
(`from_ymd_opt(..).unwrap_or_else(|| dt.date())`). -/
def add_months (dt : DateTime) (months : Int) : DateTime :=
  let year := (monthShiftTarget dt months).1
  let month := (monthShiftTarget dt months).2
  let day := min dt.date.day (daysInMonth year month)
  let date := (fromYmd? year month day).getD dt.date
  ⟨date, dt.secs⟩

/-- `shift_datetime_by_grain` from `helpers/shift.rs`. `Duration` additions
are timeline additions (`addSecs`); `Day`/`Week` move whole days. -/
def shift_datetime_by_grain (dt : DateTime) (amount : Int) (grain : Grain) : DateTime :=
  match grain with
  | .Second => dt.addSecs amount
  | .Minute => dt.addSecs (amount * 60)
  | .Hour => dt.addSecs (amount * 3600)
  | .Day => dt.addSecs (amount * 86400)
  | .Week => dt.addSecs (amount * 7 * 86400)
  | .Month => add_months dt amount
  | .Quarter => add_months dt (amount * 3)
  | .Year => add_months dt (amount * 12)

/-! ### The time algebra (`src/time_expr.rs`) -/

inductive MonthPart where
  | Early | Mid | Late
  deriving DecidableEq, Repr

inductive Season where
  | Spring | Summer | Fall | Winter
  deriving DecidableEq, Repr

inductive Holiday where
  | NewYearsDay | MLKDay | PresidentsDay | StPatricksDay | EarthDay | MemorialDay
  | FathersDay | MothersDay | IndependenceDay | LaborDay | ColumbusDay | Halloween
  | VeteransDay | Thanksgiving | Christmas | ChristmasEve | NewYearsEve | BossDay
  | BlackFriday
  deriving DecidableEq, Repr

inductive TimeValue where
  | Instant (dt : DateTime)
  | Interval (start stop : DateTime)
  | OpenAfter (dt : DateTime)
  | OpenBefore (dt : DateTime)
  deriving DecidableEq, Repr

inductive PartOfDay where
  | EarlyMorning | Morning | Afternoon | AfterLunch | Lunch | Evening | Night
  | Tonight | LateTonight | AfterWork
  deriving DecidableEq, Repr

inductive Constraint where
  | DayOfMonth (d : Nat)
  | DayOfWeek (w : Weekday)
  | Month (m : Nat)
  | Day (d : Nat)
  | TimeOfDay (t : Int)
  | PartOfDay (p : PartOfDay)
  deriving DecidableEq, Repr

/-- `TimeExpr` from `src/time_expr.rs`.  Rust's `Interval { start, end }`
fields are called `start` / `stop` here because `end` is a Lean keyword. -/
inductive TimeExpr where
  | Reference
  | At (dt : DateTime)
  | Interval (start stop : DateTime)
  | Shift (expr : TimeExpr) (amount : Int) (grain : Grain)
  | StartOf (expr : TimeExpr) (grain : Grain)
  | IntervalOf (expr : TimeExpr) (grain : Grain)
  | Intersect (expr : TimeExpr) (constraint : Constraint)
  | MonthPart (month : Option Nat) (part : MonthPart)
  | IntervalUntil (target : TimeExpr)
  | IntervalBetween (start stop : TimeExpr)
  | OpenAfter (expr : TimeExpr)
  | OpenBefore (expr : TimeExpr)
  | MonthDay (month day : Nat)
  | ClosestWeekdayTo (n : Nat) (weekday : Weekday) (target : TimeExpr)
  | Absolute (year : Int) (month day : Nat) (hour minute : Option Nat)
  | LastWeekdayOfMonth (year : Option Int) (month : Nat) (weekday : Weekday)
  | FirstWeekdayOfMonth (year : Option Int) (month : Nat) (weekday : Weekday)
  | NthWeekdayOfMonth (n : Nat) (year : Option Int) (month : Nat) (weekday : Weekday)
  | NthWeekOf (n : Nat) (year : Option Int) (month : Option Nat)
  | NthLastOf (n : Nat) (grain : Grain) (year : Option Int) (month : Option Nat)
  | SeasonPeriod (offset : Int)
  | Season (season : Season)
  | Holiday (holiday : Holiday) (year : Option Int)
  | PartOfDay (pod : PartOfDay)
  | After (expr : TimeExpr)
  | Before (expr : TimeExpr)
  | Duration (expr : TimeExpr)
  | AmbiguousTime (hour minute : Nat)
  deriving DecidableEq, Repr

/-! ### Grain boundaries (`helpers/boundaries.rs`) -/

/-- `start_of` from `helpers/boundaries.rs`.  (The engine's times carry no
sub-second component, so the `Second` case's nanosecond truncation is the
identity.) -/
def start_of (grain : Grain) (dt : DateTime) : DateTime :=
  match grain with
  | .Second => dt
  | .Minute => ⟨dt.date, dt.hour * 3600 + dt.minute * 60⟩
  | .Hour => ⟨dt.date, dt.hour * 3600⟩
  | .Day => ⟨dt.date, 0⟩
  | .Week =>
      let weekday_offset : Int := dt.date.weekday.numDaysFromMonday
      ⟨dt.date.addDays (-weekday_offset), 0⟩
  | .Month => ⟨(fromYmd? dt.date.year dt.date.month 1).getD dt.date, 0⟩
  | .Quarter =>
      let quarter_start := (dt.date.month - 1) / 3 * 3 + 1
      ⟨(fromYmd? dt.date.year quarter_start 1).getD dt.date, 0⟩
  | .Year => ⟨(fromYmd? dt.date.year 1 1).getD dt.date, 0⟩

/-- `interval_of` from `helpers/boundaries.rs`. -/
def interval_of (grain : Grain) (dt : DateTime) : TimeValue :=
  let start := start_of grain dt
  let stop := shift_datetime_by_grain start 1 grain
  .Interval start stop

end Astorion

namespace Astorion

/-! ### Normalizer helpers (`src/rules/time/normalize.rs`) -/

/-- `part_of_day_bounds`.  All `from_hms_opt` calls in the source use in-range
constants and cannot fail; the `checked_add_signed(days(1))` is total in the
unbounded model, so the result is always `some`. -/
def part_of_day_bounds (date : Date) (pod : PartOfDay) : Option (DateTime × DateTime) :=
  let bounds : Int × Int :=
    match pod with
    | .EarlyMorning => (0, 9 * 3600)
    | .Morning => (0, 12 * 3600)
    | .Afternoon => (12 * 3600, 19 * 3600)
    | .AfterLunch => (13 * 3600, 17 * 3600)
    | .Lunch => (12 * 3600, 14 * 3600)
    | .Evening | .Night | .Tonight => (18 * 3600, 0)
    | .LateTonight => (21 * 3600, 0)
    | .AfterWork => (15 * 3600, 21 * 3600)
  let start := date.andTime bounds.1
  let stop := if bounds.2 = 0 then (date.addDays 1).atMidnight else date.andTime bounds.2
  some (start, stop)

/-- `apply_part_of_day_to_reference`. -/
def apply_part_of_day_to_reference (pod : PartOfDay) (reference : DateTime) :
    Option TimeValue :=
  (part_of_day_bounds reference.date pod).map fun se => .Interval se.1 se.2

/-- `month_part_bounds`. -/
def month_part_bounds (year : Int) (month : Nat) (part : MonthPart) :
    Option (DateTime × DateTime) := do
  let (start_day, end_date) ←
    match part with
    | .Early => do
        let s ← fromYmd? year month 1
        let e ← fromYmd? year month 11
        pure (s, e)
    | .Mid => do
        let s ← fromYmd? year month 11
        let e ← fromYmd? year month 21
        pure (s, e)
    | .Late => do
        let s ← fromYmd? year month 21
        let ym := if month = 12 then (year + 1, 1) else (year, month + 1)
        let e ← fromYmd? ym.1 ym.2 1
        pure (s, e)
  some (start_day.atMidnight, end_date.atMidnight)

/-- `month_part_interval`. -/
def month_part_interval (month : Nat) (part : MonthPart) (reference : DateTime) :
    Option TimeValue := do
  let year := reference.date.year
  let bthis ← month_part_bounds year month part
  let se ← if reference < bthis.2 then pure bthis else month_part_bounds (year + 1) month part
  some (.Interval se.1 se.2)

/-- `normalize_month_day_with_weekday`: scans up to 10 years from the
reference year for a `(month, day)` that falls on `target_dow`. -/
def normalize_month_day_with_weekday (month day : Nat) (target_dow : Weekday)
    (reference : DateTime) : Option TimeValue :=
  go 10 reference.date.year
where
  go : Nat → Int → Option TimeValue
  | 0, _ => none
  | k + 1, year =>
    match fromYmd? year month day with
    | some candidate_date =>
        if candidate_date.weekday = target_dow then
          let candidate := candidate_date.atMidnight
          if year = reference.date.year then some (.Instant candidate)
          else if reference ≤ candidate then some (.Instant candidate)
          else go k (year + 1)
        else go k (year + 1)
    | none => go k (year + 1)

/-- `normalize_day_of_month_with_weekday`: scans up to 36 months from the
reference month for a day-of-month strictly after the reference that falls on
`target_dow`. -/
def normalize_day_of_month_with_weekday (day : Nat) (target_dow : Weekday)
    (reference : DateTime) : Option TimeValue :=
  go 36 0
where
  go : Nat → Int → Option TimeValue
  | 0, _ => none
  | k + 1, offset =>
    let month_index := (reference.date.month : Int) - 1 + offset
    let year := reference.date.year + month_index / 12
    let month := (month_index % 12 + 1).toNat
    match fromYmd? year month day with
    | some candidate_date =>
        if candidate_date ≤ reference.date then go k (offset + 1)
        else if candidate_date.weekday = target_dow then
          some (.Instant candidate_date.atMidnight)
        else go k (offset + 1)
    | none => go k (offset + 1)

/-- The candidate filter used by `pick_in_window` and the part-of-day
constraint: keep `c` when it lies in the window `[ws, we)`, is not before the
reference, and improves on the current best. -/
def considerCand (reference ws we : DateTime) (best : Option DateTime)
    (c : DateTime) : Option DateTime :=
  match best with
  | none => if ws ≤ c ∧ c < we ∧ reference ≤ c then some c else none
  | some b => if ws ≤ c ∧ c < we ∧ reference ≤ c ∧ c < b then some c else some b

/-- The `pick_in_window` closure of the `TimeOfDay`-on-`Interval` constraint:
tries `time` and `time + 12h` on the window's two boundary dates. -/
def pick_in_window (time : Int) (reference ws we : DateTime) : Option DateTime :=
  let b0 := considerCand reference ws we none (ws.date.andTime time)
  let b1 := considerCand reference ws we b0 ((ws.date.andTime time).addSecs (12 * 3600))
  let b2 := considerCand reference ws we b1 (we.date.andTime time)
  considerCand reference ws we b2 ((we.date.andTime time).addSecs (12 * 3600))

/-- The `while current < end` day-stepping loop of the `DayOfWeek`-on-
`Interval` constraint.  The explicit bound is the loop's iteration count for
valid datetimes (one iteration per day of the interval). -/
def find_weekday_in_interval (target_dow_num : Nat) (stop : DateTime) :
    Nat → DateTime → Option DateTime
  | 0, _ => none
  | k + 1, current =>
    if current < stop then
      if current.date.weekday.numDaysFromMonday = target_dow_num then some current
      else find_weekday_in_interval target_dow_num stop k (current.addSecs 86400)
    else none

end Astorion

namespace Astorion

/-- Midnight as a time-of-day (`from_hms_opt(0,0,0)`). -/
def midnightTime : Int := 0

/-- `apply_constraint` from `src/rules/time/normalize.rs`. -/
def apply_constraint (value : TimeValue) (constraint : Constraint)
    (reference : DateTime) : Option TimeValue :=
  match constraint with
  | .Month target_month =>
    match value with
    | .Instant dt => do
        let year := if dt.date.month ≤ target_month then dt.date.year else dt.date.year + 1
        let d ← fromYmd? year target_month 1
        some (.Instant d.atMidnight)
    | .Interval _ _ => do
        let ref_year := reference.date.year
        let ref_month := reference.date.month
        let year := if ref_month ≤ target_month then ref_year else ref_year + 1
        let target_start ← fromYmd? year target_month 1
        let ye := if target_month = 12 then (year + 1, 1) else (year, target_month + 1)
        let target_end ← fromYmd? ye.1 ye.2 1
        some (.Interval target_start.atMidnight target_end.atMidnight)
    | .OpenAfter dt | .OpenBefore dt => do
        let year := if dt.date.month ≤ target_month then dt.date.year else dt.date.year + 1
        let d ← fromYmd? year target_month 1
        some (.Instant d.atMidnight)
  | .DayOfMonth target_day =>
    match value with
    | .Instant dt =>
        if dt.date.day = 1 ∧ dt.hour = 0 ∧ dt.minute = 0 ∧ dt.second = 0 then do
          let d ← fromYmd? dt.date.year dt.date.month target_day
          some (.Instant d.atMidnight)
        else do
          let ym :=
            if dt.date.day < target_day then (dt.date.year, dt.date.month)
            else if dt.date.month = 12 then (dt.date.year + 1, 1)
            else (dt.date.year, dt.date.month + 1)
          let d ← fromYmd? ym.1 ym.2 target_day
          some (.Instant d.atMidnight)
    | .Interval _ _ => none
    | .OpenAfter dt | .OpenBefore dt =>
        if dt.date.day = 1 ∧ dt.hour = 0 ∧ dt.minute = 0 ∧ dt.second = 0 then do
          let d ← fromYmd? dt.date.year dt.date.month target_day
          some (.Instant d.atMidnight)
        else do
          let ym :=
            if dt.date.day < target_day then (dt.date.year, dt.date.month)
            else if dt.date.month = 12 then (dt.date.year + 1, 1)
            else (dt.date.year, dt.date.month + 1)
          let d ← fromYmd? ym.1 ym.2 target_day
          some (.Instant d.atMidnight)
  | .Day target_day =>
    match value with
    | .Instant dt => do
        let d ← fromYmd? dt.date.year dt.date.month target_day
        some (.Instant d.atMidnight)
    | .OpenAfter dt | .OpenBefore dt => do
        let d ← fromYmd? dt.date.year dt.date.month target_day
        some (.Instant d.atMidnight)
    | .Interval start _ => do
        let d ← fromYmd? start.date.year start.date.month target_day
        some (.Instant d.atMidnight)
  | .DayOfWeek target_dow =>
    match value with
    | .Instant dt =>
        let target_dow_num := target_dow.numDaysFromMonday
        let current_dow_num := dt.date.weekday.numDaysFromMonday
        let days_to_add :=
          if current_dow_num ≤ target_dow_num then target_dow_num - current_dow_num
          else 7 - current_dow_num + target_dow_num
        let days_to_add :=
          if dt.date = reference.date ∧ days_to_add = 0 then 7 else days_to_add
        let target_date := dt.date.addDays days_to_add
        let target_time :=
          if dt.secs = midnightTime then midnightTime
          else if dt.secs ≠ reference.secs then dt.secs
          else midnightTime
        some (.Instant (target_date.andTime target_time))
    | .OpenAfter dt | .OpenBefore dt =>
        let target_dow_num := target_dow.numDaysFromMonday
        let current_dow_num := dt.date.weekday.numDaysFromMonday
        let days_to_add :=
          if current_dow_num ≤ target_dow_num then target_dow_num - current_dow_num
          else 7 - current_dow_num + target_dow_num
        let days_to_add :=
          if dt.date = reference.date ∧ days_to_add = 0 then 7 else days_to_add
        let target_date := dt.date.addDays days_to_add
        let target_time :=
          if dt.secs = midnightTime then midnightTime
          else if dt.secs ≠ reference.secs then dt.secs
          else midnightTime
        some (.Instant (target_date.andTime target_time))
    | .Interval start stop =>
        let fuel := ((stop.tlSecs - start.tlSecs) / 86400 + 2).toNat
        (find_weekday_in_interval target_dow.numDaysFromMonday stop fuel start).map .Instant
  | .TimeOfDay time =>
    match value with
    | .Instant dt =>
        let new_dt := dt.date.andTime time
        if new_dt < reference then
          if dt.hour = 0 ∧ dt.minute = 0 ∧ dt.second = 0 then
            if dt.date = reference.date then some (.Instant (new_dt.addSecs 86400))
            else some (.Instant new_dt)
          else some (.Instant (new_dt.addSecs 86400))
        else some (.Instant new_dt)
    | .OpenAfter dt | .OpenBefore dt =>
        let new_dt := dt.date.andTime time
        if new_dt < reference then
          if dt.hour = 0 ∧ dt.minute = 0 ∧ dt.second = 0 then
            if dt.date = reference.date then some (.Instant (new_dt.addSecs 86400))
            else some (.Instant new_dt)
          else some (.Instant (new_dt.addSecs 86400))
        else some (.Instant new_dt)
    | .Interval start stop =>
        if time = 12 * 3600 ∧ stop.tlSecs - start.tlSecs ≤ 24 * 3600 then
          some (.Instant ((start.date.addDays 1).atMidnight))
        else
          match pick_in_window time reference start stop with
          | some chosen => some (.Instant chosen)
          | none =>
              (pick_in_window time reference (start.addSecs 86400) (stop.addSecs 86400)).map
                .Instant
  | .PartOfDay pod => do
    let base_date :=
      match value with
      | .Instant dt => dt.date
      | .Interval start _ => start.date
      | .OpenAfter dt | .OpenBefore dt => dt.date
    let (start, stop) ← part_of_day_bounds base_date pod
    match value with
    | .Instant dt =>
        if dt = reference then some (.Interval start stop)
        else if dt.secs = midnightTime then some (.Interval start stop)
        else
          let pod_implies_pm :=
            match pod with
            | .Afternoon | .AfterLunch | .AfterWork | .Evening | .Night
            | .Tonight | .LateTonight => true
            | _ => false
          do
            let b1 ← part_of_day_bounds reference.date pod
            let base1 := reference.date.andTime dt.secs
            let best0 := considerCand reference b1.1 b1.2 none base1
            let best1 :=
              if pod_implies_pm = true ∧ base1.hour < 12 then
                considerCand reference b1.1 b1.2 best0 (base1.addSecs (12 * 3600))
              else best0
            let b2 ← part_of_day_bounds dt.date pod
            let base2 := dt.date.andTime dt.secs
            let best2 := considerCand reference b2.1 b2.2 best1 base2
            let best3 :=
              if pod_implies_pm = true ∧ base2.hour < 12 then
                considerCand reference b2.1 b2.2 best2 (base2.addSecs (12 * 3600))
              else best2
            match best3 with
            | some chosen => some (.Instant chosen)
            | none => some (.Interval start stop)
    | _ => some (.Interval start stop)

end Astorion

namespace Astorion

/-- `mk_dt` of `normalize_season` / `normalize_season_period`: a date at
midnight. -/
def mk_dt (y : Int) (m d : Nat) : Option DateTime :=
  (fromYmd? y m d).map Date.atMidnight

/-- `bounds_for_start_year` of `normalize_season`: the fixed
northern-hemisphere season boundary table. -/
def season_bounds (season : Season) (start_year : Int) :
    Option (DateTime × DateTime) :=
  match season with
  | .Spring => do pure (← mk_dt start_year 3 21, ← mk_dt start_year 6 21)
  | .Summer => do pure (← mk_dt start_year 6 21, ← mk_dt start_year 9 24)
  | .Fall => do pure (← mk_dt start_year 9 24, ← mk_dt start_year 12 21)
  | .Winter => do pure (← mk_dt start_year 12 21, ← mk_dt (start_year + 1) 3 21)

/-- `normalize_season`: picks the season interval containing, or next
following, the reference. -/
def normalize_season (season : Season) (reference : DateTime) : Option TimeValue := do
  let year := reference.date.year
  let se ←
    match season with
    | .Winter => do
        let wprev ← season_bounds season (year - 1)
        if wprev.1 ≤ reference ∧ reference < wprev.2 then pure wprev
        else season_bounds season year
    | _ => do
        let bthis ← season_bounds season year
        if reference < bthis.1 then pure bthis
        else if bthis.2 ≤ reference then season_bounds season (year + 1)
        else pure bthis
  some (.Interval se.1 se.2)

/-- One forward step of `normalize_season_period`'s season walk. -/
def seasonAdvance : Season × Int → Season × Int
  | (.Winter, y) => (.Spring, y + 1)
  | (.Spring, y) => (.Summer, y)
  | (.Summer, y) => (.Fall, y)
  | (.Fall, y) => (.Winter, y)

/-- One backward step of `normalize_season_period`'s season walk. -/
def seasonRetreat : Season × Int → Season × Int
  | (.Winter, y) => (.Fall, y)
  | (.Fall, y) => (.Summer, y)
  | (.Summer, y) => (.Spring, y)
  | (.Spring, y) => (.Winter, y - 1)

/-- `normalize_season_period`: the local `SeasonIdx` enum of the source is
modelled by `Season` itself; its `while steps != 0` walk is the `offset`-fold
iteration of the per-step transition. -/
def season_period_bounds (idx : Season) (year : Int) :
    Option (DateTime × DateTime) :=
  match idx with
  | .Spring => do pure (← mk_dt year 3 20, ← mk_dt year 6 20)
  | .Summer => do pure (← mk_dt year 6 21, ← mk_dt year 9 22)
  | .Fall => do pure (← mk_dt year 9 23, ← mk_dt year 12 20)
  | .Winter => do pure (← mk_dt year 12 21, ← mk_dt (year + 1) 3 19)

def normalize_season_period (offset : Int) (reference : DateTime) : Option TimeValue := do
  let date := reference.date
  let year := reference.date.year
  let dec21 ← fromYmd? year 12 21
  let mar19 ← fromYmd? year 3 19
  let mar20 ← fromYmd? year 3 20
  let jun20 ← fromYmd? year 6 20
  let jun21 ← fromYmd? year 6 21
  let sep22 ← fromYmd? year 9 22
  let sep23 ← fromYmd? year 9 23
  let dec20 ← fromYmd? year 12 20
  let start : Season × Int :=
    if dec21 ≤ date then (.Winter, year)
    else if date ≤ mar19 then (.Winter, year - 1)
    else if mar20 ≤ date ∧ date ≤ jun20 then (.Spring, year)
    else if jun21 ≤ date ∧ date ≤ sep22 then (.Summer, year)
    else if sep23 ≤ date ∧ date ≤ dec20 then (.Fall, year)
    else (.Winter, year)
  let final :=
    if 0 < offset then seasonAdvance^[offset.toNat] start
    else seasonRetreat^[(-offset).toNat] start
  let se ← season_period_bounds final.1 final.2
  some (.Interval se.1 se.2)

/-- The year-marker decoding at the top of `normalize_holiday`:
`Some(-1)` is "last year", `Some(1)` is "next year", an explicit year must
exceed 1000, and any other marker is treated as `None`. -/
def resolved_year (year : Option Int) (refYear : Int) : Option Int :=
  match year with
  | some y =>
      if y = -1 then some (refYear - 1)
      else if y = 1 then some (refYear + 1)
      else if 1000 < y then some y
      else none
  | none => none

/-- The holiday table of `normalize_holiday`: each holiday's underlying
`TimeExpr` representation. -/
def holidayExpr (holiday : Holiday) (resolvedYear : Option Int) : TimeExpr :=
  match holiday with
  | .Thanksgiving => .NthWeekdayOfMonth 4 resolvedYear 11 .thu
  | .Christmas => .MonthDay 12 25
  | .ChristmasEve => .MonthDay 12 24
  | .NewYearsDay => .MonthDay 1 1
  | .NewYearsEve => .MonthDay 12 31
  | .IndependenceDay => .MonthDay 7 4
  | .Halloween => .MonthDay 10 31
  | .VeteransDay => .MonthDay 11 11
  | .StPatricksDay => .MonthDay 3 17
  | .EarthDay => .MonthDay 4 22
  | .MLKDay => .NthWeekdayOfMonth 3 resolvedYear 1 .mon
  | .PresidentsDay => .NthWeekdayOfMonth 3 resolvedYear 2 .mon
  | .MemorialDay => .LastWeekdayOfMonth resolvedYear 5 .mon
  | .LaborDay => .NthWeekdayOfMonth 1 resolvedYear 9 .mon
  | .ColumbusDay => .NthWeekdayOfMonth 2 resolvedYear 10 .mon
  | .MothersDay => .NthWeekdayOfMonth 2 resolvedYear 5 .sun
  | .FathersDay => .NthWeekdayOfMonth 3 resolvedYear 6 .sun
  | .BossDay => .MonthDay 10 16
  | .BlackFriday => .LastWeekdayOfMonth resolvedYear 11 .fri

/-- The `for _ in 0..7 { if weekday matches break; succ }` seek used by the
`NthWeekdayOfMonth` branch (plain `break` semantics: after 7 failed checks the
walked-forward date is used as-is). -/
def seekWeekdayFwd : Nat → Date → Weekday → Date
  | 0, d, _ => d
  | k + 1, d, w => if d.weekday = w then d else seekWeekdayFwd k d.succ w

/-- The forward seek of `FirstWeekdayOfMonth` (returns `None` after 7 failed
checks). -/
def seekWeekdayFwd? : Nat → Date → Weekday → Option Date
  | 0, _, _ => none
  | k + 1, d, w => if d.weekday = w then some d else seekWeekdayFwd? k d.succ w

/-- The backward seek of `LastWeekdayOfMonth` (returns `None` after 7 failed
checks). -/
def seekWeekdayBack? : Nat → Date → Weekday → Option Date
  | 0, _, _ => none
  | k + 1, d, w => if d.weekday = w then some d else seekWeekdayBack? k d.pred w

/-- The `ClosestWeekdayTo` backward seek (plain `break` semantics, rechecked
afterwards by the caller). -/
def seekWeekdayBack : Nat → Date → Weekday → Date
  | 0, d, _ => d
  | k + 1, d, w => if d.weekday = w then d else seekWeekdayBack k d.pred w

/-- Last day of a month, as the source computes it in several branches:
first day of the following month, stepped back one day. -/
def lastDayOfMonth? (y : Int) (m : Nat) : Option Date :=
  if m = 12 then (fromYmd? (y + 1) 1 1).map Date.pred
  else (fromYmd? y (m + 1) 1).map Date.pred

/-- Does the expression match the `Intersect { Reference, DayOfWeek(d) }`
shape tested by the `Shift` week special cases? -/
def refDowPattern : TimeExpr → Option Weekday
  | .Intersect .Reference (.DayOfWeek dow) => some dow
  | _ => none

/-- Is the expression one of the "holiday-like anchors" that a month/year
`Shift` renormalizes against a shifted reference? -/
def isHolidayLikeAnchor : TimeExpr → Bool
  | .Holiday _ _ | .NthWeekdayOfMonth _ _ _ _ | .LastWeekdayOfMonth _ _ _ => true
  | _ => false

/-- Structural size of a `TimeExpr`; this is the recursion measure of
`normalize` (every expression the normalizer recursively constructs and
renormalizes — year-adjusted weekday anchors, the holiday table's leaves —
is strictly smaller than the expression it replaces). -/
def exprSize : TimeExpr → Nat
  | .Shift e _ _ => exprSize e + 1
  | .StartOf e _ => exprSize e + 1
  | .IntervalOf e _ => exprSize e + 1
  | .Intersect e _ => exprSize e + 1
  | .IntervalUntil t => exprSize t + 1
  | .IntervalBetween a b => exprSize a + exprSize b + 1
  | .OpenAfter e => exprSize e + 1
  | .OpenBefore e => exprSize e + 1
  | .After e => exprSize e + 1
  | .Before e => exprSize e + 1
  | .Duration e => exprSize e + 1
  | .ClosestWeekdayTo _ _ t => exprSize t + 1
  | .Holiday _ _ => 2
  | _ => 1

end Astorion

namespace Astorion

/-- The normalizer `normalize(expr, reference)` from
`src/rules/time/normalize.rs`, written with an explicit structural fuel
argument equal to `exprSize expr` (the source's recursion always moves to an
expression of strictly smaller `exprSize`, so passing `exprSize` as fuel
realizes exactly the source's recursion; the fuel-0 case is unreachable from
`normalize` below). -/
def normalizeGo : Nat → TimeExpr → DateTime → Option TimeValue
  | 0, _, _ => none
  | fuel + 1, expr, reference =>
    match expr with
    | .Reference => some (.Instant reference)
    | .At dt => some (.Instant dt)
    | .Interval start stop => some (.Interval start stop)
    | .Shift e amount grain =>
      if amount = 0 then normalizeGo fuel e reference
      else
        let genShift : Option TimeValue → Option TimeValue := fun v =>
          match v with
          | none => none
          | some (.Instant dt) =>
              some (.Instant (shift_datetime_by_grain dt amount grain))
          | some (.Interval s2 e2) =>
              some (.Interval (shift_datetime_by_grain s2 amount grain)
                (shift_datetime_by_grain e2 amount grain))
          | some (.OpenAfter dt) =>
              some (.OpenAfter (shift_datetime_by_grain dt amount grain))
          | some (.OpenBefore dt) =>
              some (.OpenBefore (shift_datetime_by_grain dt amount grain))
        if amount = -1 ∧ grain = .Week ∧ refDowPattern e = some reference.date.weekday then
          some (.Instant ((reference.date.addDays (-7)).atMidnight))
        else if amount = 1 ∧ grain = .Week ∧ refDowPattern e = some reference.date.weekday then
          normalizeGo fuel e reference
        else if (grain = .Month ∨ grain = .Year) ∧ isHolidayLikeAnchor e = true then
          normalizeGo fuel e (shift_datetime_by_grain reference amount grain)
        else if grain = .Year then
          match e with
          | .NthWeekdayOfMonth n year month weekday =>
            if amount = -1 ∧ year = none then
              match normalizeGo fuel
                  (.NthWeekdayOfMonth n (some reference.date.year) month weekday) reference with
              | some (.Instant dt) =>
                  if dt.date < reference.date then some (.Instant dt)
                  else normalizeGo fuel
                    (.NthWeekdayOfMonth n (some (reference.date.year - 1)) month weekday)
                    reference
              | _ => genShift (normalizeGo fuel e reference)
            else
              let new_year :=
                match year with
                | some y => some (y + amount)
                | none => some (reference.date.year + amount)
              normalizeGo fuel (.NthWeekdayOfMonth n new_year month weekday) reference
          | .LastWeekdayOfMonth year month weekday =>
              let new_year :=
                match year with
                | some y => some (y + amount)
                | none => some (reference.date.year + amount)
              normalizeGo fuel (.LastWeekdayOfMonth new_year month weekday) reference
          | _ => genShift (normalizeGo fuel e reference)
        else genShift (normalizeGo fuel e reference)
    | .StartOf e grain =>
      match normalizeGo fuel e reference with
      | none => none
      | some (.Instant dt) => some (.Instant (start_of grain dt))
      | some (.Interval s2 _) => some (.Instant (start_of grain s2))
      | some (.OpenAfter dt) => some (.OpenAfter (start_of grain dt))
      | some (.OpenBefore dt) => some (.OpenBefore (start_of grain dt))
    | .IntervalOf e grain =>
      match normalizeGo fuel e reference with
      | none => none
      | some (.Instant dt) => some (interval_of grain dt)
      | some (.Interval s2 _) => some (interval_of grain s2)
      | some (.OpenAfter dt) => some (interval_of grain dt)
      | some (.OpenBefore dt) => some (interval_of grain dt)
    | .Intersect e c =>
      match e, c with
      | .MonthDay month day, .DayOfWeek target_dow =>
          normalize_month_day_with_weekday month day target_dow reference
      | .Intersect .Reference (.DayOfMonth day), .DayOfWeek target_dow =>
          normalize_day_of_month_with_weekday day target_dow reference
      | .Intersect .Reference (.DayOfWeek target_dow), .DayOfMonth day =>
          normalize_day_of_month_with_weekday day target_dow reference
      | _, _ =>
          match normalizeGo fuel e reference with
          | none => none
          | some base_value => apply_constraint base_value c reference
    | .MonthPart month part =>
        month_part_interval (month.getD reference.date.month) part reference
    | .IntervalUntil target =>
      match normalizeGo fuel target reference with
      | none => none
      | some (.Instant end_dt) => some (.Interval reference end_dt)
      | some (.Interval _ e2) => some (.Interval reference e2)
      | some (.OpenAfter end_dt) => some (.Interval reference end_dt)
      | some (.OpenBefore end_dt) => some (.Interval reference end_dt)
    | .IntervalBetween start stop =>
      let general : Unit → Option TimeValue := fun _ =>
        match normalizeGo fuel start reference with
        | none => none
        | some start_value =>
          match normalizeGo fuel stop reference with
          | none => none
          | some end_value =>
            let start_dt :=
              match start_value with
              | .Instant dt => dt
              | .Interval s2 _ => s2
              | .OpenAfter dt => dt
              | .OpenBefore dt => dt
            let end_dt :=
              match end_value with
              | .Instant dt => dt
              | .Interval _ e2 => e2
              | .OpenAfter dt => dt
              | .OpenBefore dt => dt
            some (.Interval start_dt end_dt)
      match start, stop with
      | .MonthDay start_month start_day, .MonthDay end_month end_day =>
        if end_month < start_month then do
          let start_candidate ← fromYmd? reference.date.year start_month start_day
          let start_year :=
            if reference.date ≤ start_candidate then reference.date.year - 1
            else reference.date.year
          let end_year := start_year + 1
          let start_date ← fromYmd? start_year start_month start_day
          let end_date ← fromYmd? end_year end_month end_day
          some (.Interval start_date.atMidnight end_date.atMidnight)
        else general ()
      | _, _ => general ()
    | .OpenAfter e =>
      match normalizeGo fuel e reference with
      | none => none
      | some (.Instant dt) => some (.OpenAfter dt)
      | some (.Interval s2 _) => some (.OpenAfter s2)
      | some (.OpenAfter dt) => some (.OpenAfter dt)
      | some (.OpenBefore dt) => some (.OpenAfter dt)
    | .OpenBefore e =>
      match normalizeGo fuel e reference with
      | none => none
      | some (.Instant dt) => some (.OpenBefore dt)
      | some (.Interval _ e2) => some (.OpenBefore e2)
      | some (.OpenAfter dt) => some (.OpenBefore dt)
      | some (.OpenBefore dt) => some (.OpenBefore dt)
    | .MonthDay month day => do
      let candidate ← fromYmd? reference.date.year month day
      if candidate < reference.date then do
        let candidate2 ← fromYmd? (reference.date.year + 1) month day
        some (.Instant candidate2.atMidnight)
      else some (.Instant candidate.atMidnight)
    | .ClosestWeekdayTo n weekday target =>
      let n1 := max n 1
      match normalizeGo fuel target reference with
      | none => none
      | some target_value =>
        let target_dt :=
          match target_value with
          | .Instant dt => dt
          | .Interval s2 _ => s2
          | .OpenAfter dt => dt
          | .OpenBefore dt => dt
        let target_date := target_dt.date
        let base := seekWeekdayBack 7 target_date weekday
        if base.weekday ≠ weekday then none
        else
          let span_weeks := n1 + 2
          let raw := (List.range (span_weeks + 1)).flatMap fun k =>
            [base.addDays (-(7 * (k : Int))), base.addDays (7 * (k : Int))]
          let sorted1 := raw.insertionSort (fun a b => a ≤ b)
          let deduped := sorted1.destutter (· ≠ ·)
          let key : Date → Int × Int × Int := fun d =>
            let offset := d.dayNumber - target_date.dayNumber
            (offset.natAbs, if 0 ≤ offset then 0 else 1, offset)
          let keyLe : Date → Date → Prop := fun a b =>
            (key a).1 < (key b).1 ∨ ((key a).1 = (key b).1 ∧
              ((key a).2.1 < (key b).2.1 ∨ ((key a).2.1 = (key b).2.1 ∧
                (key a).2.2 ≤ (key b).2.2)))
          let sorted2 := deduped.insertionSort fun a b => decide (keyLe a b)
          match sorted2.get? (n1 - 1) with
          | none => none
          | some chosen => some (.Instant chosen.atMidnight)
    | .Absolute year month day hour minute => do
      let d ← fromYmd? year month day
      let t ← fromHms? (hour.getD 0) (minute.getD 0) 0
      some (.Instant (d.andTime t))
    | .LastWeekdayOfMonth year month weekday => do
      let target_year := year.getD reference.date.year
      let last_day_of_month ← lastDayOfMonth? target_year month
      let d ← seekWeekdayBack? 7 last_day_of_month weekday
      some (.Instant d.atMidnight)
    | .FirstWeekdayOfMonth year month weekday => do
      let target_year := year.getD reference.date.year
      let first_day_of_month ← fromYmd? target_year month 1
      let d ← seekWeekdayFwd? 7 first_day_of_month weekday
      some (.Instant d.atMidnight)
    | .NthWeekdayOfMonth n year month weekday => do
      let target_year :=
        match year with
        | some y => if y = -1 then reference.date.year - 1 else y
        | none => reference.date.year
      let first_day_of_month ← fromYmd? target_year month 1
      let c0 := seekWeekdayFwd 7 first_day_of_month weekday
      if n = 0 ∨ 5 < n then none
      else
        let current := c0.addDays (7 * ((n - 1 : Nat) : Int))
        if current.month ≠ month then none
        else if year = none ∧ current < reference.date then do
          let first2 ← fromYmd? (target_year + 1) month 1
          let current2 := (seekWeekdayFwd 7 first2 weekday).addDays (7 * ((n - 1 : Nat) : Int))
          if current2.month ≠ month then none
          else some (.Instant current2.atMidnight)
        else some (.Instant current.atMidnight)
    | .NthWeekOf n year month =>
      let target_year := year.getD reference.date.year
      match month with
      | some target_month => do
          let first_day ← fromYmd? target_year target_month 1
          let fdow := first_day.weekday
          let days_until_monday : Nat :=
            if fdow = .mon then 0 else (7 - fdow.numDaysFromMonday) % 7
          let first_monday := first_day.addDays days_until_monday
          let target_week_start := first_monday.addDays (7 * ((n : Int) - 1))
          some (.Instant target_week_start.atMidnight)
      | none => none
    | .NthLastOf n grain year month =>
      let target_year := year.getD reference.date.year
      match grain with
      | .Week =>
        match month with
        | some target_month => do
            let last_day ← lastDayOfMonth? target_year target_month
            let days_since_sunday : Int := last_day.weekday.numDaysFromSunday
            let last_sunday := last_day.addDays (-days_since_sunday)
            let last_monday := last_sunday.addDays (-6)
            let target_monday := last_monday.addDays (-(7 * ((n : Int) - 1)))
            some (.Instant target_monday.atMidnight)
        | none => do
            let last_day_of_year ← fromYmd? target_year 12 31
            let days_since_sunday : Int := last_day_of_year.weekday.numDaysFromSunday
            let last_sunday := last_day_of_year.addDays (-days_since_sunday)
            let last_monday := last_sunday.addDays (-6)
            let target_monday := last_monday.addDays (-(7 * ((n : Int) - 1)))
            some (.Instant target_monday.atMidnight)
      | .Day =>
        match month with
        | some target_month => do
            let last_day ← lastDayOfMonth? target_year target_month
            some (.Instant (last_day.addDays (-((n : Int) - 1))).atMidnight)
        | none => do
            let last_day_of_year ← fromYmd? target_year 12 31
            some (.Instant (last_day_of_year.addDays (-((n : Int) - 1))).atMidnight)
      | _ => none
    | .Holiday holiday year =>
        normalizeGo fuel (holidayExpr holiday (resolved_year year reference.date.year))
          reference
    | .Season season => normalize_season season reference
    | .SeasonPeriod offset => normalize_season_period offset reference
    | .PartOfDay pod => apply_part_of_day_to_reference pod reference
    | .After e =>
      match normalizeGo fuel e reference with
      | none => none
      | some (.Instant dt) => some (.OpenAfter dt)
      | some (.Interval s2 _) => some (.OpenAfter s2)
      | some (.OpenAfter dt) => some (.OpenAfter dt)
      | some (.OpenBefore dt) => some (.OpenAfter dt)
    | .Before e =>
      match normalizeGo fuel e reference with
      | none => none
      | some (.Instant dt) => some (.OpenBefore dt)
      | some (.Interval _ e2) => some (.OpenBefore e2)
      | some (.OpenAfter dt) => some (.OpenBefore dt)
      | some (.OpenBefore dt) => some (.OpenBefore dt)
    | .Duration e => normalizeGo fuel e reference
    | .AmbiguousTime hour minute => do
      let hour_am := if hour = 12 then 0 else hour
      let hour_pm := if hour = 12 then 12 else hour + 12
      let time_am ← fromHms? hour_am minute 0
      let time_pm ← fromHms? hour_pm minute 0
      let today := reference.date
      let am_today := today.andTime time_am
      let pm_today := today.andTime time_pm
      let next_time :=
        if reference < am_today then am_today
        else if reference < pm_today then pm_today
        else today.succ.andTime time_am
      some (.Instant next_time)

/-- `normalize(expr, reference)`. -/
def normalize (expr : TimeExpr) (reference : DateTime) : Option TimeValue :=
  normalizeGo (exprSize expr) expr reference

/-- `normalize_holiday`: decode the year marker, look the holiday up in the
table and normalize the underlying expression. -/
def normalize_holiday (holiday : Holiday) (year : Option Int)
    (reference : DateTime) : Option TimeValue :=
  normalize (holidayExpr holiday (resolved_year year reference.date.year)) reference

end Astorion

namespace Astorion

/-! ### Engine model (`src/lib.rs`, `src/engine/parser.rs`, `resolve.rs`,
`dedup.rs`)

The engine is generic in the token type `Tok` (standing for `lib.rs`'s
`Token`, whose numeral payload carries an `f64`) and in the dedup kind-key
type `K` (standing for `dedup.rs`'s `NodeKindKey`); the dimension tag, the
dedup key and the per-dimension resolution are supplied as functions, and raw
regex matching (the external `regex` crate) is supplied as an oracle
`regexHits` from pattern identity to its matches over the input. -/

/-- `Dimension` from `lib.rs`, in declaration order (the resolver sorts by
the `dim as u8` discriminant). -/
inductive Dimension where
  | Time | RegexMatch | Numeral
  deriving DecidableEq, Repr

def Dimension.idx : Dimension → Nat
  | .Time => 0 | .RegexMatch => 1 | .Numeral => 2

/-- `Range` from `lib.rs` (`end` is a Lean keyword; the field is `stop`). -/
structure Range where
  start : Nat
  stop : Nat
  deriving DecidableEq, Repr

structure Node (Tok : Type) where
  range : Range
  token : Tok
  rule_name : String
  evidence : List String

structure ResolvedToken (Tok : Type) where
  node : Node Tok
  value : String
  latent : Bool

/-- `NodeKey` from `dedup.rs`. -/
structure NodeKey (K : Type) where
  start : Nat
  stop : Nat
  dim : Dimension
  rule_name : String
  kind_key : K
  deriving DecidableEq

inductive Pattern (Tok : Type) where
  | regex (id : Nat)
  | pred (f : Tok → Bool)

structure Rule (Tok : Type) where
  name : String
  pattern : List (Pattern Tok)
  production : List Tok → Option Tok
  deps : List Dimension
  priority : Nat

section Engine

variable {Tok : Type} {K : Type} [DecidableEq K]
variable (dimOf : Tok → Dimension) (kindKey : Tok → K)
variable (regexHits : Nat → List (Node Tok))

/-- `NodeKey::from_node`. -/
def node_key (n : Node Tok) : NodeKey K :=
  ⟨n.range.start, n.range.stop, dimOf n.token, n.rule_name, kindKey n.token⟩

/-- Position order `(start, end)` used by `Stash::to_pos_ordered_list`. -/
def posLe (a b : Node Tok) : Prop :=
  a.range.start < b.range.start ∨
    (a.range.start = b.range.start ∧ a.range.stop ≤ b.range.stop)

instance (a b : Node Tok) : Decidable (posLe a b) := by
  unfold posLe; exact inferInstance

/-- `Stash::to_pos_ordered_list`. -/
def to_pos_ordered_list (stash : List (Node Tok)) : List (Node Tok) :=
  stash.insertionSort posLe

/-- `Parser::lookup_item`: nodes matching `pat` that start exactly at
`position`. -/
def lookup_item (stash : List (Node Tok)) (pat : Pattern Tok) (position : Nat) :
    List (Node Tok) :=
  match pat with
  | .regex id => (regexHits id).filter fun n => n.range.start = position
  | .pred f =>
      (to_pos_ordered_list stash).filter fun n =>
        n.range.start = position ∧ f n.token = true

/-- `Parser::lookup_item_anywhere`. -/
def lookup_item_anywhere (stash : List (Node Tok)) (pat : Pattern Tok) :
    List (Node Tok) :=
  match pat with
  | .regex id => regexHits id
  | .pred f => (to_pos_ordered_list stash).filter fun n => f n.token = true

/-- The depth-first extension of a partial match through the remaining
patterns (`Parser::match_all`; the stack-with-reversed-pushes of the source
enumerates exactly this forward depth-first order).  Returns the completed
routes. -/
def matchRest (stash : List (Node Tok)) :
    List (Pattern Tok) → Nat → List (Node Tok) → List (List (Node Tok))
  | [], _, route => [route]
  | pat :: rest, position, route =>
    (lookup_item regexHits stash pat position).flatMap fun node =>
      matchRest stash rest node.range.stop (route ++ [node])

/-- `Parser::produce_node`. -/
def produce_node (rule : Rule Tok) (route : List (Node Tok)) : Option (Node Tok) :=
  match rule.production (route.map (·.token)) with
  | none => none
  | some tok =>
    match route.head?, route.getLast? with
    | some first, some last =>
        some ⟨⟨first.range.start, last.range.stop⟩, tok, rule.name,
          route.flatMap fun nd => nd.rule_name :: nd.evidence⟩
    | _, _ => none

/-- Seeding plus full matching plus production for one rule
(the body of the `for rule in rule_set` loop of `apply_rules_once`). -/
def apply_rule_once (stash : List (Node Tok)) (rule : Rule Tok) : List (Node Tok) :=
  match rule.pattern with
  | [] => []
  | p0 :: rest =>
    ((lookup_item_anywhere regexHits stash p0).flatMap fun node =>
      matchRest regexHits stash rest node.range.stop [node]).filterMap
        (produce_node rule)

/-- `Parser::apply_rules_once` (the discovered nodes; the source's extra
metric counters are dropped). -/
def apply_rules_once (stash : List (Node Tok)) (rule_set : List (Rule Tok)) :
    List (Node Tok) :=
  rule_set.flatMap (apply_rule_once regexHits stash)

/-- `Parser::deps_satisfied`, with `dimensions_in_stash` inlined as a direct
membership test. -/
def deps_satisfied (stash : List (Node Tok)) (rule : Rule Tok) : Bool :=
  rule.deps.all fun dep => stash.any fun n => dimOf n.token = dep

/-- The per-pass dedup against the `seen` set: returns the truly new nodes
and the grown `seen` list. -/
def dedupNew (seen : List (NodeKey K)) :
    List (Node Tok) → List (Node Tok) × List (NodeKey K)
  | [] => ([], seen)
  | node :: rest =>
    let key := node_key dimOf kindKey node
    if key ∈ seen then dedupNew seen rest
    else
      let (ns, seen') := dedupNew (seen ++ [key]) rest
      (node :: ns, seen')

variable (unionEq : Node Tok → Node Tok → Bool)

/-- `Stash::union`: concatenate, sort by `(start, end)`, and drop consecutive
duplicates under the union equality (`dedup_by`). -/
def unionNodes (a b : List (Node Tok)) : List (Node Tok) :=
  ((a ++ b).insertionSort posLe).destutter fun x y => ¬ unionEq x y = true

/-- Saturation state: the stash and the seen-key set. -/
structure SatState (Tok K : Type) where
  stash : List (Node Tok)
  seen : List (NodeKey K)

/-- The iterative saturation passes (the `loop` of `Parser::saturate`),
with an explicit fuel bound: `none` means the bound was hit before the
fixpoint.  Each pass filters rules by dependency satisfaction, applies them
once, dedups against `seen`, and stops when nothing new was produced. -/
def satLoop (all_rules : List (Rule Tok)) :
    Nat → SatState Tok K → Option (SatState Tok K)
  | 0, _ => none
  | f + 1, st =>
    let active := all_rules.filter fun r => deps_satisfied dimOf st.stash r
    let discovered := apply_rules_once regexHits st.stash active
    let (newNodes, seen') := dedupNew dimOf kindKey st.seen discovered
    if newNodes.isEmpty then some st
    else satLoop all_rules f ⟨unionNodes unionEq st.stash newNodes, seen'⟩

/-- `Parser::saturate`: the initial regex pass, then the iterative passes
(predicate-first rules, then regex rules).  When the initial pass produces
nothing, saturation returns immediately with the empty stash. -/
def saturate (regex_rules predicate_rules : List (Rule Tok)) (fuel : Nat) :
    Option (SatState Tok K) :=
  let discovered := apply_rules_once regexHits [] regex_rules
  let (new0, seen0) := dedupNew dimOf kindKey [] discovered
  if new0.isEmpty then some ⟨[], seen0⟩
  else
    satLoop dimOf kindKey regexHits unionEq (predicate_rules ++ regex_rules) fuel
      ⟨unionNodes unionEq [] new0, seen0⟩

end Engine

end Astorion

namespace Astorion

section Resolver

variable {Tok : Type} {K : Type} [DecidableEq K]
variable (dimOf : Tok → Dimension) (kindKey : Tok → K)
variable (regexHits : Nat → List (Node Tok))
variable (unionEq : Node Tok → Node Tok → Bool)
variable (resolveVal : Tok → Option (String × Bool))
variable (prio : String → Nat)

/-- `resolve_node` from `engine/resolve.rs`: dimension-specific resolution of
the token (the `resolve` function, closed over context and options) paired
with the untouched node. -/
def resolve_node (n : Node Tok) : Option (ResolvedToken Tok) :=
  (resolveVal n.token).map fun vl => ⟨n, vl.1, vl.2⟩

/-- The sort key of `resolve_filtered`'s comparator:
`(dim as u8, range.start, -range.end, -priority)`. -/
def rtKey (rt : ResolvedToken Tok) : Nat × Nat × Int × Int :=
  ((dimOf rt.node.token).idx, rt.node.range.start,
    -(rt.node.range.stop : Int), -(prio rt.node.rule_name : Int))

/-- Lexicographic order on the four-component sort key. -/
def quadLe (x y : Nat × Nat × Int × Int) : Prop :=
  x.1 < y.1 ∨ (x.1 = y.1 ∧ (x.2.1 < y.2.1 ∨ (x.2.1 = y.2.1 ∧
    (x.2.2.1 < y.2.2.1 ∨ (x.2.2.1 = y.2.2.1 ∧ x.2.2.2 ≤ y.2.2.2)))))

instance (x y : Nat × Nat × Int × Int) : Decidable (quadLe x y) := by
  unfold quadLe; exact inferInstance

/-- The comparator of `resolve_filtered`'s `sort_by` ("is not Greater"). -/
def rtLe (a b : ResolvedToken Tok) : Prop :=
  quadLe (rtKey dimOf prio a) (rtKey dimOf prio b)

instance (a b : ResolvedToken Tok) : Decidable (rtLe dimOf prio a b) := by
  unfold rtLe; exact inferInstance

/-- Is `rt` strictly contained in the last-kept range (same dimension)?
This is the `is_subsumed` check of `resolve_filtered`. -/
def subsumedBy (lkr : Option Range) (rt : ResolvedToken Tok) : Bool :=
  match lkr with
  | some range =>
      decide (range.start ≤ rt.node.range.start ∧ rt.node.range.stop ≤ range.stop ∧
        ¬(range.start = rt.node.range.start ∧ range.stop = rt.node.range.stop))
  | none => false

/-- The filtering walk of `resolve_filtered`: keep a last-kept span, reset it
when the dimension changes, drop entities strictly contained in it. -/
def subsumption_walk :
    Option Dimension → Option Range → List (ResolvedToken Tok) →
      List (ResolvedToken Tok)
  | _, _, [] => []
  | last_kept_dim, last_kept_range, rt :: rest =>
    let dim := dimOf rt.node.token
    let lkr := if last_kept_dim = some dim then last_kept_range else none
    if subsumedBy lkr rt then subsumption_walk (some dim) lkr rest
    else rt :: subsumption_walk (some dim) (some rt.node.range) rest

/-- `Parser::resolve_filtered`: resolve every stash node, sort by
`(dim, start, -end, -priority)`, and drop subsumed spans. -/
def resolve_filtered (stash : List (Node Tok)) : List (ResolvedToken Tok) :=
  subsumption_walk dimOf
    (none : Option Dimension) (none : Option Range)
    ((stash.filterMap (resolve_node resolveVal)).insertionSort (rtLe dimOf prio))

/-- `Parser::run_with_metrics` (the token list; timing dropped, and the
deactivated classifier, as in the source, is the identity). -/
def run_tokens (regex_rules predicate_rules : List (Rule Tok)) (fuel : Nat) :
    Option (List (ResolvedToken Tok)) :=
  (saturate dimOf kindKey regexHits unionEq regex_rules predicate_rules fuel).map
    fun st => resolve_filtered dimOf resolveVal prio st.stash

/-- `Entity` from `api.rs`; the input and the body are modelled as lists of
abstract input units, so `body` is a span-extraction from the input. -/
structure Entity where
  name : String
  body : List Char
  value : String
  start : Nat
  stop : Nat
  latent : Bool
  rule : String

def dimension_name : Dimension → String
  | .Time => "time"
  | .RegexMatch => "regex"
  | .Numeral => "numeral"

/-- `resolved_to_entity` from `api.rs`: `input.get(start..end).unwrap_or("")`
yields the span's substring when the span is well-formed and the empty string
otherwise (the source's char-boundary condition has no analogue over abstract
input units). -/
def resolved_to_entity (input : List Char) (rt : ResolvedToken Tok) : Entity :=
  let s := rt.node.range.start
  let e := rt.node.range.stop
  { name := dimension_name (dimOf rt.node.token)
    body := if s ≤ e ∧ e ≤ input.length then (input.drop s).take (e - s) else []
    value := rt.value
    start := s
    stop := e
    latent := rt.latent
    rule := rt.node.rule_name }

/-- `parse_with` from `api.rs`, for an already-gated rule set: run the
parser and convert the kept tokens to entities.  `none` means the fuel bound
was hit before the saturation fixpoint. -/
def parse_entities (input : List Char) (regex_rules predicate_rules : List (Rule Tok))
    (fuel : Nat) : Option (List Entity) :=
  (run_tokens dimOf kindKey regexHits unionEq resolveVal prio regex_rules
      predicate_rules fuel).map
    fun tokens => tokens.map (resolved_to_entity dimOf input)

end Resolver

end Astorion

namespace Astorion

/-! ### Statement-level notions used by the claims -/

/-- The target year selected by the `NthWeekdayOfMonth` branch
(`Some(-1)` is the "reference year − 1" marker). -/
def nthTargetYear (year : Option Int) (refYear : Int) : Int :=
  match year with
  | some y => if y = -1 then refYear - 1 else y
  | none => refYear

/-- The candidate date the `NthWeekdayOfMonth` branch computes for a given
target year: the first occurrence of the weekday in the month, moved forward
by `n − 1` weeks (not yet checked to lie in the month). -/
def nthWeekdayCandidate (y : Int) (month : Nat) (w : Weekday) (n : Nat) : Date :=
  (seekWeekdayFwd 7 ⟨y, month, 1⟩ w).addDays (7 * ((n - 1 : Nat) : Int))

/-- `outer` strictly contains `inner`: the containment tested by
`resolve_filtered`'s subsumption walk (inclusion of spans that is not span
equality). -/
def strictlyContains (outer inner : Range) : Prop :=
  outer.start ≤ inner.start ∧ inner.stop ≤ outer.stop ∧
    ¬(outer.start = inner.start ∧ outer.stop = inner.stop)

instance (outer inner : Range) : Decidable (strictlyContains outer inner) := by
  unfold strictlyContains; exact inferInstance

/-- A node's span is well-formed for an input of length `len`. -/
def NodeInRange {Tok : Type} (len : Nat) (n : Node Tok) : Prop :=
  n.range.start ≤ n.range.stop ∧ n.range.stop ≤ len

end Astorion

namespace Astorion

/-! ### Supporting lemmas: calendar arithmetic and interval bounds -/


lemma Date.lt_iff (a b : Date) : a < b ↔
    (a.year < b.year ∨ (a.year = b.year ∧
      (a.month < b.month ∨ (a.month = b.month ∧ a.day < b.day)))) := Iff.rfl

lemma Date.le_iff (a b : Date) : a ≤ b ↔ (a < b ∨ a = b) := Iff.rfl

lemma DateTime.lt_iff_parts (a b : DateTime) : a < b ↔
    (a.date < b.date ∨ (a.date = b.date ∧ a.secs < b.secs)) := Iff.rfl

lemma DateTime.le_iff_parts (a b : DateTime) : a ≤ b ↔ (a < b ∨ a = b) := Iff.rfl

lemma daysInMonth_pos (y : Int) (m : Nat) (h1 : 1 ≤ m) (h2 : m ≤ 12) :
    0 < daysInMonth y m := by
  interval_cases m <;> simp [daysInMonth] <;> split <;> omega

lemma daysInMonth_twelve (y : Int) : daysInMonth y 12 = 31 := rfl

lemma Date.lt_succ (d : Date) : d < d.succ := by
  obtain ⟨y, m, day⟩ := d
  simp only [Date.succ]
  split_ifs with h1 h2 <;> rw [Date.lt_iff] <;> dsimp <;> omega

lemma Date.Valid.succ {d : Date} (h : d.Valid) : d.succ.Valid := by
  obtain ⟨y, m, day⟩ := d
  obtain ⟨h1, h2, h3, h4⟩ := h
  dsimp at h1 h2 h3 h4
  simp only [Date.succ]
  have hp1 := daysInMonth_pos y (m + 1)
  split_ifs with ha hb <;> refine ⟨?_, ?_, ?_, ?_⟩ <;>
    simp_all [Date.Valid, daysInMonth] <;> omega

lemma Date.Valid.pred {d : Date} (h : d.Valid) : d.pred.Valid := by
  obtain ⟨y, m, day⟩ := d
  obtain ⟨h1, h2, h3, h4⟩ := h
  dsimp at h1 h2 h3 h4
  simp only [Date.pred]
  have hp1 := daysInMonth_pos y (m - 1)
  split_ifs with ha hb <;> refine ⟨?_, ?_, ?_, ?_⟩ <;>
    simp_all [Date.Valid, daysInMonth] <;> omega

lemma Date.pred_succ {d : Date} (h : d.Valid) : d.succ.pred = d := by
  obtain ⟨y, m, day⟩ := d
  obtain ⟨h1, h2, h3, h4⟩ := h
  dsimp at h1 h2 h3 h4
  simp only [Date.succ]
  split_ifs with ha hb
  · simp only [Date.pred]
    split_ifs with hc <;> simp_all [Date.mk.injEq] <;> omega
  · simp only [Date.pred]
    split_ifs with hc hd <;> simp_all [Date.mk.injEq] <;> omega
  · have hm : m = 12 := by omega
    subst hm
    rw [daysInMonth_twelve] at h4 ha
    simp only [Date.pred]
    simp [Date.mk.injEq]
    omega

lemma Date.succ_pred {d : Date} (h : d.Valid) : d.pred.succ = d := by
  obtain ⟨y, m, day⟩ := d
  obtain ⟨h1, h2, h3, h4⟩ := h
  dsimp at h1 h2 h3 h4
  simp only [Date.pred]
  split_ifs with ha hb
  · simp only [Date.succ]
    split_ifs with hc hd <;> simp_all [Date.mk.injEq] <;> omega
  · have hp := daysInMonth_pos y (m - 1) (by omega) (by omega)
    simp only [Date.succ]
    split_ifs with hc hd <;> simp_all [Date.mk.injEq] <;> omega
  · have hm : m = 1 := by omega
    have hd1 : day = 1 := by omega
    subst hm; subst hd1
    simp only [Date.succ, daysInMonth_twelve]
    norm_num

lemma Date.succ_iter_valid (n : Nat) {d : Date} (h : d.Valid) :
    (Date.succ^[n] d).Valid := by
  induction n generalizing d with
  | zero => exact h
  | succ k ih => rw [Function.iterate_succ_apply]; exact ih h.succ

lemma Date.pred_iter_valid (n : Nat) {d : Date} (h : d.Valid) :
    (Date.pred^[n] d).Valid := by
  induction n generalizing d with
  | zero => exact h
  | succ k ih => rw [Function.iterate_succ_apply]; exact ih h.pred

lemma Date.pred_iter_succ_iter (n : Nat) {d : Date} (h : d.Valid) :
    Date.pred^[n] (Date.succ^[n] d) = d := by
  induction n generalizing d with
  | zero => rfl
  | succ k ih =>
    have h1 : Date.succ^[k + 1] d = Date.succ (Date.succ^[k] d) :=
      Function.iterate_succ_apply' Date.succ k d
    have h2 : ∀ x : Date, Date.pred^[k + 1] x = Date.pred^[k] (Date.pred x) :=
      fun x => Function.iterate_succ_apply Date.pred k x
    rw [h1, h2, Date.pred_succ (Date.succ_iter_valid k h)]
    exact ih h

lemma Date.succ_iter_pred_iter (n : Nat) {d : Date} (h : d.Valid) :
    Date.succ^[n] (Date.pred^[n] d) = d := by
  induction n generalizing d with
  | zero => rfl
  | succ k ih =>
    have h1 : Date.pred^[k + 1] d = Date.pred (Date.pred^[k] d) :=
      Function.iterate_succ_apply' Date.pred k d
    have h2 : ∀ x : Date, Date.succ^[k + 1] x = Date.succ^[k] (Date.succ x) :=
      fun x => Function.iterate_succ_apply Date.succ k x
    rw [h1, h2, Date.succ_pred (Date.pred_iter_valid k h)]
    exact ih h

lemma Date.addDays_valid {d : Date} (h : d.Valid) (k : Int) :
    (d.addDays k).Valid := by
  unfold Date.addDays
  split_ifs <;> [exact Date.succ_iter_valid _ h; exact Date.pred_iter_valid _ h]

lemma Date.addDays_cancel {d : Date} (h : d.Valid) (k : Int) :
    (d.addDays k).addDays (-k) = d := by
  unfold Date.addDays
  rcases lt_trichotomy k 0 with hk | hk | hk
  · rw [if_neg (show ¬ 0 ≤ k by omega), if_pos (show 0 ≤ -k by omega)]
    exact Date.succ_iter_pred_iter _ h
  · subst hk; norm_num
  · rw [if_pos (show 0 ≤ k by omega), if_neg (show ¬ 0 ≤ -k by omega), neg_neg]
    exact Date.pred_iter_succ_iter _ h

lemma DateTime.addSecs_valid {dt : DateTime} (h : dt.Valid) (k : Int) :
    (dt.addSecs k).Valid := by
  obtain ⟨hd, h0, h1⟩ := h
  refine ⟨Date.addDays_valid hd _, ?_, ?_⟩ <;> dsimp [DateTime.addSecs] <;> omega

lemma DateTime.addSecs_cancel {dt : DateTime} (h : dt.Valid) (k : Int) :
    (dt.addSecs k).addSecs (-k) = dt := by
  obtain ⟨⟨y, m, day⟩, secs⟩ := dt
  obtain ⟨hd, h0, h1⟩ := h
  dsimp at h0 h1
  simp only [DateTime.addSecs]
  have hq : ((secs + k) % 86400 + -k) / 86400 = -((secs + k) / 86400) := by omega
  have hr : ((secs + k) % 86400 + -k) % 86400 = secs := by omega
  rw [hq, hr, Date.addDays_cancel hd]

lemma add_months_eval {y : Int} {m day : Nat} {secs : Int} (mm : Int)
    (h1 : 1 ≤ m) (h2 : m ≤ 12) (h3 : 1 ≤ day)
    (hday : day ≤ daysInMonth (y + ((m : Int) - 1 + mm) / 12)
      (((m : Int) - 1 + mm) % 12 + 1).toNat) :
    add_months ⟨⟨y, m, day⟩, secs⟩ mm =
      ⟨⟨y + ((m : Int) - 1 + mm) / 12,
        (((m : Int) - 1 + mm) % 12 + 1).toNat, day⟩, secs⟩ := by
  simp only [add_months, monthShiftTarget]
  rw [min_eq_left hday]
  simp only [fromYmd?]
  split
  · rfl
  · next hne =>
      refine absurd ⟨?_, ?_, h3, hday⟩ hne
      · show 1 ≤ (((m : Int) - 1 + mm) % 12 + 1).toNat
        omega
      · show (((m : Int) - 1 + mm) % 12 + 1).toNat ≤ 12
        omega

lemma add_months_cancel {dt : DateTime} (h : dt.Valid) (mm : Int)
    (hc : noDayClamp dt mm) : add_months (add_months dt mm) (-mm) = dt := by
  obtain ⟨⟨y, m, day⟩, secs⟩ := dt
  obtain ⟨⟨h1, h2, h3, h4⟩, _, _⟩ := h
  simp only [noDayClamp, monthShiftTarget] at hc
  dsimp at h1 h2 h3 h4 hc
  rw [add_months_eval mm h1 h2 h3 hc]
  have hy2 : (y + ((m : Int) - 1 + mm) / 12) +
      (((((m : Int) - 1 + mm) % 12 + 1).toNat : Int) - 1 + -mm) / 12 = y := by omega
  have hm2 : ((((((m : Int) - 1 + mm) % 12 + 1).toNat : Int) - 1 + -mm) % 12 + 1).toNat
      = m := by omega
  have hM1 : 1 ≤ (((m : Int) - 1 + mm) % 12 + 1).toNat := by omega
  have hM2 : (((m : Int) - 1 + mm) % 12 + 1).toNat ≤ 12 := by omega
  rw [add_months_eval (-mm) hM1 hM2 h3 (by rw [hy2, hm2]; exact h4)]
  rw [hy2, hm2]

lemma Date.lt_addDays_one (d : Date) : d < d.addDays 1 := by
  unfold Date.addDays
  rw [if_pos (by norm_num)]
  show d < Date.succ^[(1 : Int).toNat] d
  rw [show ((1 : Int).toNat) = 1 from rfl, Function.iterate_one]
  exact Date.lt_succ d

lemma fromYmd?_some {y : Int} {m d : Nat} {x : Date} :
    fromYmd? y m d = some x ↔ ((Date.mk y m d).Valid ∧ x = ⟨y, m, d⟩) := by
  unfold fromYmd?
  split
  · simp only [Option.some.injEq]
    constructor
    · intro h; exact ⟨by assumption, h.symm⟩
    · intro h; exact h.2.symm
  · simp only [reduceCtorEq, false_iff, not_and]
    intro hv; exact absurd hv (by assumption)

lemma part_of_day_bounds_lt (d : Date) (pod : PartOfDay) (s e : DateTime)
    (h : part_of_day_bounds d pod = some (s, e)) : s < e := by
  have hlt1 : d < d.addDays 1 := Date.lt_addDays_one d
  cases pod <;>
    (simp only [part_of_day_bounds, Option.some.injEq, Prod.mk.injEq] at h;
     norm_num at h) <;>
    rcases h with ⟨rfl, rfl⟩ <;>
    first
      | exact Or.inr ⟨rfl, by norm_num [Date.andTime]⟩
      | exact Or.inl hlt1

lemma atMidnight_lt_atMidnight {a b : Date} (h : a < b) :
    a.atMidnight < b.atMidnight := Or.inl h

lemma month_part_bounds_lt (y : Int) (m : Nat) (p : MonthPart) (s e : DateTime)
    (h : month_part_bounds y m p = some (s, e)) : s < e := by
  cases p <;> simp only [month_part_bounds] at h
  · rcases hx1 : fromYmd? y m 1 with _ | d1 <;> rw [hx1] at h
    · simp at h
    · rcases hx2 : fromYmd? y m 11 with _ | d2 <;> rw [hx2] at h
      · simp at h
      · obtain ⟨_, rfl⟩ := fromYmd?_some.mp hx1
        obtain ⟨_, rfl⟩ := fromYmd?_some.mp hx2
        simp only [Option.pure_def, Option.bind_some, Option.some.injEq,
          Prod.mk.injEq] at h
        obtain ⟨rfl, rfl⟩ := h
        exact atMidnight_lt_atMidnight (by rw [Date.lt_iff]; dsimp; omega)
  · rcases hx1 : fromYmd? y m 11 with _ | d1 <;> rw [hx1] at h
    · simp at h
    · rcases hx2 : fromYmd? y m 21 with _ | d2 <;> rw [hx2] at h
      · simp at h
      · obtain ⟨_, rfl⟩ := fromYmd?_some.mp hx1
        obtain ⟨_, rfl⟩ := fromYmd?_some.mp hx2
        simp only [Option.pure_def, Option.bind_some, Option.some.injEq,
          Prod.mk.injEq] at h
        obtain ⟨rfl, rfl⟩ := h
        exact atMidnight_lt_atMidnight (by rw [Date.lt_iff]; dsimp; omega)
  · rcases hx1 : fromYmd? y m 21 with _ | d1 <;> rw [hx1] at h
    · simp at h
    · by_cases hm : m = 12
      · subst hm
        rw [if_pos rfl] at h
        dsimp only at h
        rcases hx2 : fromYmd? (y + 1) 1 1 with _ | d2 <;> rw [hx2] at h
        · simp at h
        · obtain ⟨_, rfl⟩ := fromYmd?_some.mp hx1
          obtain ⟨_, rfl⟩ := fromYmd?_some.mp hx2
          simp only [Option.pure_def, Option.bind_some, Option.some.injEq,
            Prod.mk.injEq] at h
          obtain ⟨rfl, rfl⟩ := h
          exact atMidnight_lt_atMidnight (by rw [Date.lt_iff]; dsimp; omega)
      · rw [if_neg hm] at h
        dsimp only at h
        rcases hx2 : fromYmd? y (m + 1) 1 with _ | d2 <;> rw [hx2] at h
        · simp at h
        · obtain ⟨_, rfl⟩ := fromYmd?_some.mp hx1
          obtain ⟨_, rfl⟩ := fromYmd?_some.mp hx2
          simp only [Option.pure_def, Option.bind_some, Option.some.injEq,
            Prod.mk.injEq] at h
          obtain ⟨rfl, rfl⟩ := h
          exact atMidnight_lt_atMidnight (by rw [Date.lt_iff]; dsimp; omega)

lemma month_part_interval_lt (m : Nat) (p : MonthPart) (ref s e : DateTime)
    (h : month_part_interval m p ref = some (.Interval s e)) : s < e := by
  simp only [month_part_interval] at h
  rcases hx1 : month_part_bounds ref.date.year m p with _ | ⟨s1, e1⟩ <;> rw [hx1] at h
  · simp at h
  · simp only [Option.bind_eq_bind, Option.some_bind] at h
    split at h
    · simp only [Option.pure_def, Option.some_bind, Option.some.injEq,
        TimeValue.Interval.injEq] at h
      obtain ⟨rfl, rfl⟩ := h
      exact month_part_bounds_lt _ _ _ _ _ hx1
    · rcases hx2 : month_part_bounds (ref.date.year + 1) m p with _ | ⟨s2, e2⟩ <;>
        rw [hx2] at h
      · simp at h
      · simp only [Option.some_bind, Option.some.injEq, TimeValue.Interval.injEq] at h
        obtain ⟨rfl, rfl⟩ := h
        exact month_part_bounds_lt _ _ _ _ _ hx2

lemma mk_dt_some {y : Int} {m d : Nat} {x : DateTime} :
    mk_dt y m d = some x ↔ ((Date.mk y m d).Valid ∧ x = (Date.mk y m d).atMidnight) := by
  unfold mk_dt
  simp only [Option.map_eq_some', fromYmd?_some]
  constructor
  · rintro ⟨a, ⟨hv, rfl⟩, rfl⟩; exact ⟨hv, rfl⟩
  · rintro ⟨hv, rfl⟩; exact ⟨_, ⟨hv, rfl⟩, rfl⟩

lemma season_bounds_lt (sn : Season) (sy : Int) (s e : DateTime)
    (h : season_bounds sn sy = some (s, e)) : s < e := by
  cases sn <;>
    simp only [season_bounds, Option.bind_eq_bind, Option.bind_eq_some, Option.pure_def,
      Option.some.injEq, Prod.mk.injEq, mk_dt_some] at h <;>
    obtain ⟨a, ⟨hva, rfl⟩, b, ⟨hvb, rfl⟩, rfl, rfl⟩ := h <;>
    exact atMidnight_lt_atMidnight (by rw [Date.lt_iff]; dsimp; omega)

lemma season_period_bounds_lt (sn : Season) (sy : Int) (s e : DateTime)
    (h : season_period_bounds sn sy = some (s, e)) : s < e := by
  cases sn <;>
    simp only [season_period_bounds, Option.bind_eq_bind, Option.bind_eq_some,
      Option.pure_def, Option.some.injEq, Prod.mk.injEq, mk_dt_some] at h <;>
    obtain ⟨a, ⟨hva, rfl⟩, b, ⟨hvb, rfl⟩, rfl, rfl⟩ := h <;>
    exact atMidnight_lt_atMidnight (by rw [Date.lt_iff]; dsimp; omega)

lemma bind_interval_eq {s e : DateTime} {o : Option (DateTime × DateTime)}
    (h : (o.bind fun y => some (TimeValue.Interval y.1 y.2)) = some (.Interval s e)) :
    o = some (s, e) := by
  rcases o with _ | q
  · simp at h
  · cases q
    simp only [Option.some_bind, Option.some.injEq, TimeValue.Interval.injEq] at h
    obtain ⟨rfl, rfl⟩ := h
    rfl

lemma normalize_season_lt (sn : Season) (ref s e : DateTime)
    (h : normalize_season sn ref = some (.Interval s e)) : s < e := by
  cases sn
  all_goals
    simp only [normalize_season, Option.bind_eq_bind, Option.bind_eq_some,
      Option.pure_def, Option.some.injEq, TimeValue.Interval.injEq] at h
  all_goals obtain ⟨a, ha, h2⟩ := h
  all_goals repeat' split at h2
  all_goals have hb := bind_interval_eq h2
  all_goals
    first
      | exact season_bounds_lt _ _ _ _ hb
      | (obtain rfl := Option.some.inj hb
         exact season_bounds_lt _ _ _ _ ha)

lemma normalize_season_period_lt (off : Int) (ref s e : DateTime)
    (h : normalize_season_period off ref = some (.Interval s e)) : s < e := by
  simp only [normalize_season_period, Option.bind_eq_bind, Option.bind_eq_some,
    Option.pure_def, Option.some.injEq, TimeValue.Interval.injEq, fromYmd?_some] at h
  obtain ⟨d1, ⟨_, rfl⟩, d2, ⟨_, rfl⟩, d3, ⟨_, rfl⟩, d4, ⟨_, rfl⟩, d5, ⟨_, rfl⟩,
    d6, ⟨_, rfl⟩, d7, ⟨_, rfl⟩, d8, ⟨_, rfl⟩, h2⟩ := h
  obtain ⟨p, hp, hs, he⟩ := h2
  subst hs; subst he
  exact season_period_bounds_lt _ _ _ _ hp
end Astorion

namespace Astorion

/-! ### Claims C3, C4, C5, C6, C7, C10 -/

/-- C3: for every `TimeExpr` `e`, grain `g` and reference `r`,
`normalize (Shift e 0 g) r = normalize e r`: a `Shift` with amount 0 is a
precision marker only and does not move the anchor. -/
theorem c3_shift_zero_noop (e : TimeExpr) (g : Grain) (r : DateTime) :
    normalize (.Shift e 0 g) r = normalize e r := by
  show normalizeGo (exprSize e + 1) (.Shift e 0 g) r = normalizeGo (exprSize e) e r
  simp [normalizeGo]

/-- C4 (counterexample): with reference 2013-01-21 04:30 (which is the third
Monday of January 2013 itself), normalizing
`Shift{NthWeekdayOfMonth{n:3, year:None, month:1, weekday:Mon}, -1, Year}`
returns 2013-01-21 — the reference year's occurrence, which is *not* in the
past — while the claim demands the most-recent-past occurrence, namely the
previous year's 2012-01-16.  The "most recent past" special case at
normalize.rs:55-102 is unreachable: the month/year anchor branch at
normalize.rs:40-51 (shift the reference, renormalize) fires first. -/
theorem c4_counterexample :
    normalize (.Shift (.NthWeekdayOfMonth 3 none 1 .mon) (-1) .Year)
        ⟨⟨2013, 1, 21⟩, 16200⟩
      = some (.Instant ⟨⟨2013, 1, 21⟩, 0⟩) ∧
    normalize (.NthWeekdayOfMonth 3 (some 2013) 1 .mon) ⟨⟨2013, 1, 21⟩, 16200⟩
      = some (.Instant ⟨⟨2013, 1, 21⟩, 0⟩) ∧
    ¬((⟨2013, 1, 21⟩ : Date) < (⟨2013, 1, 21⟩ : Date)) ∧
    normalize (.NthWeekdayOfMonth 3 (some 2012) 1 .mon) ⟨⟨2013, 1, 21⟩, 16200⟩
      = some (.Instant ⟨⟨2012, 1, 16⟩, 0⟩) ∧
    (some (TimeValue.Instant ⟨⟨2013, 1, 21⟩, 0⟩) : Option TimeValue)
      ≠ some (.Instant ⟨⟨2012, 1, 16⟩, 0⟩) := by
  refine ⟨by decide, by decide, by decide, by decide, by decide⟩

/-- C4 (amended): normalizing `Shift{expr, -1, Year}` where `expr` is
`NthWeekdayOfMonth` or `LastWeekdayOfMonth` (any year marker, in particular
`year == None`) shifts the *reference* back one calendar year (with
end-of-month day clamping) and renormalizes the anchor against the shifted
reference; in particular, with `year == None`, the result is the occurrence
nearest the shifted reference under the anchor's own past-retry rule, not
the claim's "most recent past relative to the original reference". -/
theorem c4_amended (n : Nat) (year : Option Int) (month : Nat) (w : Weekday)
    (ref : DateTime) :
    normalize (.Shift (.NthWeekdayOfMonth n year month w) (-1) .Year) ref
      = normalize (.NthWeekdayOfMonth n year month w)
          (shift_datetime_by_grain ref (-1) .Year) ∧
    normalize (.Shift (.LastWeekdayOfMonth year month w) (-1) .Year) ref
      = normalize (.LastWeekdayOfMonth year month w)
          (shift_datetime_by_grain ref (-1) .Year) := by
  constructor <;>
    (show normalizeGo (1 + 1) _ ref = _
     simp [normalizeGo, refDowPattern, isHolidayLikeAnchor, normalize, exprSize])

/-- C5: the grain shift round-trip `shift(shift(x, k, g), -k, g) = x` holds
unconditionally for the hour/minute/second grains, and for the calendar
grains (month, quarter, year — moving `c = 1, 3, 12` months per unit)
whenever no end-of-month day clamping occurs in either shift. -/
theorem c5_grain_shift_roundtrip :
    (∀ (x : DateTime) (k : Int) (g : Grain), x.Valid →
        g = .Hour ∨ g = .Minute ∨ g = .Second →
        shift_datetime_by_grain (shift_datetime_by_grain x k g) (-k) g = x) ∧
    (∀ (x : DateTime) (k c : Int) (g : Grain), x.Valid →
        (g = .Month ∧ c = 1) ∨ (g = .Quarter ∧ c = 3) ∨ (g = .Year ∧ c = 12) →
        noDayClamp x (k * c) →
        noDayClamp (shift_datetime_by_grain x k g) (-(k * c)) →
        shift_datetime_by_grain (shift_datetime_by_grain x k g) (-k) g = x) := by
  constructor
  · intro x k g hv hg
    rcases hg with rfl | rfl | rfl
    · show (x.addSecs (k * 3600)).addSecs (-k * 3600) = x
      rw [show -k * 3600 = -(k * 3600) by ring]
      exact DateTime.addSecs_cancel hv _
    · show (x.addSecs (k * 60)).addSecs (-k * 60) = x
      rw [show -k * 60 = -(k * 60) by ring]
      exact DateTime.addSecs_cancel hv _
    · exact DateTime.addSecs_cancel hv k
  · intro x k c g hv hg hc1 _hc2
    rcases hg with ⟨rfl, rfl⟩ | ⟨rfl, rfl⟩ | ⟨rfl, rfl⟩
    · show add_months (add_months x k) (-k) = x
      have := add_months_cancel hv k (by simpa using hc1)
      simpa using this
    · show add_months (add_months x (k * 3)) (-k * 3) = x
      rw [show -k * 3 = -(k * 3) by ring]
      exact add_months_cancel hv (k * 3) hc1
    · show add_months (add_months x (k * 12)) (-k * 12) = x
      rw [show -k * 12 = -(k * 12) by ring]
      exact add_months_cancel hv (k * 12) hc1

/-- Witness for C5 at concrete inputs: a 5-hour round trip and a 2-month
round trip from 2013-02-12 04:30. -/
theorem c5_grain_shift_roundtrip_witness :
    shift_datetime_by_grain
        (shift_datetime_by_grain ⟨⟨2013, 2, 12⟩, 16200⟩ 5 .Hour) (-5) .Hour
      = ⟨⟨2013, 2, 12⟩, 16200⟩ ∧
    shift_datetime_by_grain
        (shift_datetime_by_grain ⟨⟨2013, 2, 12⟩, 16200⟩ 2 .Month) (-2) .Month
      = ⟨⟨2013, 2, 12⟩, 16200⟩ :=
  ⟨c5_grain_shift_roundtrip.1 ⟨⟨2013, 2, 12⟩, 16200⟩ 5 .Hour (by decide)
      (Or.inl rfl),
   c5_grain_shift_roundtrip.2 ⟨⟨2013, 2, 12⟩, 16200⟩ 2 1 .Month (by decide)
      (Or.inl ⟨rfl, rfl⟩) (by decide) (by decide)⟩

/-- C6 (counterexample): normalization does not enforce `s < e` on produced
intervals.  `IntervalUntil{At(2013-02-11)}` at reference 2013-02-12 04:30
produces the reversed interval `[2013-02-12 04:30, 2013-02-11 00:00)`. -/
theorem c6_counterexample :
    normalize (.IntervalUntil (.At ⟨⟨2013, 2, 11⟩, 0⟩)) ⟨⟨2013, 2, 12⟩, 16200⟩
      = some (.Interval ⟨⟨2013, 2, 12⟩, 16200⟩ ⟨⟨2013, 2, 11⟩, 0⟩) ∧
    ¬((⟨⟨2013, 2, 12⟩, 16200⟩ : DateTime) < ⟨⟨2013, 2, 11⟩, 0⟩) := by
  refine ⟨by decide, by decide⟩

/-- C6 (amended): the intervals built by the normalizer's own bound tables —
part-of-day bounds, month-part intervals, season intervals and
season-period intervals — always satisfy `s < e`; but `s < e` is not an
invariant of every produced `Interval`: the `Interval`, `IntervalBetween`
and `IntervalUntil` variants pair endpoints taken from the expression
without any check (see the counterexample). -/
theorem c6_amended :
    (∀ (d : Date) (pod : PartOfDay) (s e : DateTime),
        part_of_day_bounds d pod = some (s, e) → s < e) ∧
    (∀ (m : Nat) (p : MonthPart) (ref s e : DateTime),
        month_part_interval m p ref = some (.Interval s e) → s < e) ∧
    (∀ (sn : Season) (ref s e : DateTime),
        normalize_season sn ref = some (.Interval s e) → s < e) ∧
    (∀ (off : Int) (ref s e : DateTime),
        normalize_season_period off ref = some (.Interval s e) → s < e) :=
  ⟨part_of_day_bounds_lt, month_part_interval_lt, normalize_season_lt,
    normalize_season_period_lt⟩

/-- Witness for C6 (amended) at a concrete input: the lunch interval of
2013-02-12 is `[12:00, 14:00)`, and 12:00 < 14:00. -/
theorem c6_amended_witness :
    part_of_day_bounds ⟨2013, 2, 12⟩ .Lunch
      = some (⟨⟨2013, 2, 12⟩, 43200⟩, ⟨⟨2013, 2, 12⟩, 50400⟩) ∧
    (⟨⟨2013, 2, 12⟩, 43200⟩ : DateTime) < ⟨⟨2013, 2, 12⟩, 50400⟩ :=
  ⟨by decide, c6_amended.1 ⟨2013, 2, 12⟩ .Lunch _ _ (by decide)⟩

/-- C7: normalizing `NthWeekOf{n, year, month: None}` (the nth week of a
*year*) always returns no value — the source explicitly leaves this case
unimplemented ("not implemented yet"), contradicting the spec, which says it
yields the Monday of the nth week of the year. -/
theorem c7_nth_week_of_year_none (n : Nat) (year : Option Int) (r : DateTime) :
    normalize (.NthWeekOf n year none) r = none := by
  simp [normalize, normalizeGo, exprSize]

/-- C10: `normalize_holiday`'s year decoding. `Some(-1)` is reference year
minus one, `Some(1)` is reference year plus one, `Some(y)` with `y > 1000`
is the explicit year `y`, and every other marker (`0`, `2`, …, `1000`,
`-2`, …) behaves exactly like `None` (nearest occurrence).  The last
conjunct ties `normalize` on a `Holiday` expression to `normalize_holiday`. -/
theorem c10_holiday_year_markers :
    (∀ r : Int, resolved_year (some (-1)) r = some (r - 1)) ∧
    (∀ r : Int, resolved_year (some 1) r = some (r + 1)) ∧
    (∀ y r : Int, 1000 < y → resolved_year (some y) r = some y) ∧
    (∀ (h : Holiday) (y : Int) (ref : DateTime), y ≠ -1 → y ≠ 1 → y ≤ 1000 →
      normalize_holiday h (some y) ref = normalize_holiday h none ref) ∧
    (∀ (h : Holiday) (y : Option Int) (ref : DateTime),
      normalize (.Holiday h y) ref = normalize_holiday h y ref) := by
  refine ⟨fun r => rfl, fun r => by norm_num [resolved_year], ?_, ?_, ?_⟩
  · intro y r hy
    simp only [resolved_year]
    rw [if_neg (by omega), if_neg (by omega), if_pos hy]
  · intro h y ref h1 h2 h3
    have he : resolved_year (some y) ref.date.year
        = resolved_year none ref.date.year := by
      simp only [resolved_year]
      rw [if_neg h1, if_neg h2, if_neg (by omega)]
    unfold normalize_holiday
    rw [he]
  · intro h y ref
    cases h <;> rfl

/-- Witness for C10 at a concrete input: for Thanksgiving, the invalid
marker `Some(2)` resolves like `None` at reference 2013-02-12 04:30. -/
theorem c10_holiday_year_markers_witness :
    normalize_holiday .Thanksgiving (some 2) ⟨⟨2013, 2, 12⟩, 16200⟩
      = normalize_holiday .Thanksgiving none ⟨⟨2013, 2, 12⟩, 16200⟩ :=
  c10_holiday_year_markers.2.2.2.1 .Thanksgiving 2 ⟨⟨2013, 2, 12⟩, 16200⟩
    (by decide) (by decide) (by decide)

end Astorion

namespace Astorion

/-! ### Claim C9 -/

/-- Evaluation of the `NthWeekdayOfMonth` branch for a calendar-valid month:
the `from_ymd_opt` calls succeed, the 7-day weekday seek plus the `n − 1`
week jump give `nthWeekdayCandidate`, and the result is decided by the
`n`-range check, the month-membership check, and the past-retry. -/
lemma nthWeekday_eval (n : Nat) (year : Option Int) (month : Nat) (w : Weekday)
    (ref : DateTime) (h1 : 1 ≤ month) (h2 : month ≤ 12) :
    normalize (.NthWeekdayOfMonth n year month w) ref =
      (if n = 0 ∨ 5 < n then none
       else if (nthWeekdayCandidate (nthTargetYear year ref.date.year) month w n).month
            ≠ month then none
       else if year = none ∧
            nthWeekdayCandidate (nthTargetYear year ref.date.year) month w n < ref.date then
         (if (nthWeekdayCandidate (nthTargetYear year ref.date.year + 1) month w n).month
              ≠ month then none
          else some (.Instant
            (nthWeekdayCandidate (nthTargetYear year ref.date.year + 1) month w n).atMidnight))
       else some (.Instant
         (nthWeekdayCandidate (nthTargetYear year ref.date.year) month w n).atMidnight)) := by
  have hv : ∀ ty : Int, fromYmd? ty month 1 = some ⟨ty, month, 1⟩ := fun ty =>
    fromYmd?_some.mpr ⟨⟨h1, h2, le_refl 1, daysInMonth_pos ty month h1 h2⟩, rfl⟩
  cases year <;>
    simp only [normalize, exprSize, normalizeGo, nthTargetYear, nthWeekdayCandidate,
      hv, Option.bind_eq_bind, Option.some_bind]

/-- C9 (counterexample): the claim's "in every other case it returns an
Instant at midnight" fails when the month is not a calendar month: for
`NthWeekdayOfMonth{n:1, year:None, month:13, weekday:Mon}` the result is
no value although `n ≠ 0` and `n ≤ 5` (and there is no weekday occurrence
whose week jump could "leave the month"). -/
theorem c9_counterexample :
    normalize (.NthWeekdayOfMonth 1 none 13 .mon) ⟨⟨2013, 2, 12⟩, 16200⟩ = none ∧
    (1 : Nat) ≠ 0 ∧ ¬(5 < (1 : Nat)) := by
  refine ⟨by decide, by decide, by decide⟩

/-- C9 (amended): for a calendar-valid month (`1 ≤ month ≤ 12`), normalizing
`NthWeekdayOfMonth{n, year, month, weekday}` returns no value exactly when
`n = 0`, or `n > 5`, or adding `n − 1` weeks to the first occurrence of the
weekday leaves the target month — counting the next-year retry that runs
when `year` is `None` and the first candidate lies in the past; in every
other case it returns an `Instant` at midnight. -/
theorem c9_amended (n : Nat) (year : Option Int) (month : Nat) (w : Weekday)
    (ref : DateTime) (h1 : 1 ≤ month) (h2 : month ≤ 12) :
    (normalize (.NthWeekdayOfMonth n year month w) ref = none ↔
      (n = 0 ∨ 5 < n ∨
        (nthWeekdayCandidate (nthTargetYear year ref.date.year) month w n).month ≠ month ∨
        (year = none ∧
          (nthWeekdayCandidate (nthTargetYear year ref.date.year) month w n).month = month ∧
          nthWeekdayCandidate (nthTargetYear year ref.date.year) month w n < ref.date ∧
          (nthWeekdayCandidate (nthTargetYear year ref.date.year + 1) month w n).month
            ≠ month))) ∧
    (∀ v, normalize (.NthWeekdayOfMonth n year month w) ref = some v →
        ∃ d : Date, v = .Instant d.atMidnight) := by
  rw [nthWeekday_eval n year month w ref h1 h2]
  constructor
  · split_ifs with ha hb hc hd
    · simp
      tauto
    · simp
      tauto
    · simp
      tauto
    · simp
      exact ⟨by tauto, by omega, by tauto, fun hy hm hlt => by tauto⟩
    · simp
      exact ⟨by tauto, by omega, by tauto, fun hy hm hlt => by tauto⟩
  · intro v hv
    split_ifs at hv
    all_goals
      first
        | exact Option.noConfusion hv
        | exact ⟨_, (Option.some.inj hv).symm⟩

/-- Witness for C9 (amended) at a concrete input: Thanksgiving 2013 (the
4th Thursday of November at reference 2013-02-12 04:30) is an `Instant` at
midnight. -/
theorem c9_amended_witness :
    ∃ d : Date, (TimeValue.Instant ⟨⟨2013, 11, 28⟩, 0⟩) = .Instant d.atMidnight :=
  (c9_amended 4 none 11 .thu ⟨⟨2013, 2, 12⟩, 16200⟩ (by decide) (by decide)).2
    (.Instant ⟨⟨2013, 11, 28⟩, 0⟩) (by decide)

end Astorion
namespace Astorion

section C1

variable {Tok : Type} (dimOf : Tok → Dimension) (prio : String → Nat)

lemma Dimension.idx_inj {a b : Dimension} (h : a.idx = b.idx) : a = b := by
  cases a <;> cases b <;> simp_all [Dimension.idx]

lemma rtLe_dim {a b : ResolvedToken Tok} (h : rtLe dimOf prio a b) :
    (dimOf a.node.token).idx ≤ (dimOf b.node.token).idx := by
  unfold rtLe quadLe rtKey at h
  omega

lemma rtLe_start {a b : ResolvedToken Tok} (h : rtLe dimOf prio a b)
    (hd : dimOf a.node.token = dimOf b.node.token) :
    a.node.range.start ≤ b.node.range.start := by
  have hidx : (dimOf a.node.token).idx = (dimOf b.node.token).idx := by rw [hd]
  unfold rtLe quadLe rtKey at h
  dsimp only at h
  omega

lemma rtLe_stop {a b : ResolvedToken Tok} (h : rtLe dimOf prio a b)
    (hd : dimOf a.node.token = dimOf b.node.token)
    (hs : a.node.range.start = b.node.range.start) :
    b.node.range.stop ≤ a.node.range.stop := by
  have hidx : (dimOf a.node.token).idx = (dimOf b.node.token).idx := by rw [hd]
  unfold rtLe quadLe rtKey at h
  dsimp only at h
  omega

lemma subsumedBy_some_iff (rg : Range) (rt : ResolvedToken Tok) :
    subsumedBy (some rg) rt = true ↔ strictlyContains rg rt.node.range := by
  simp [subsumedBy, strictlyContains]
  tauto

lemma subsumedBy_none (rt : ResolvedToken Tok) : subsumedBy (none : Option Range) rt = false := rfl

lemma walk_subset (l : List (ResolvedToken Tok)) :
    ∀ ld lr, ∀ b ∈ subsumption_walk dimOf ld lr l, b ∈ l := by
  induction l with
  | nil => intro ld lr b hb; simp [subsumption_walk] at hb
  | cons x t ih =>
    intro ld lr b hb
    rw [subsumption_walk] at hb
    split at hb
    all_goals split at hb
    all_goals
      first
        | exact List.mem_cons_of_mem _ (ih _ _ b hb)
        | (rcases List.mem_cons.mp hb with rfl | hb2
           exacts [List.mem_cons_self _ _, List.mem_cons_of_mem _ (ih _ _ b hb2)])

lemma walk_no_strict (l : List (ResolvedToken Tok)) :
    ∀ (d : Dimension) (rg : Range),
    l.Pairwise (rtLe dimOf prio) →
    (∀ x ∈ l, d.idx ≤ (dimOf x.node.token).idx) →
    (∀ x ∈ l, dimOf x.node.token = d → rg.start ≤ x.node.range.start ∧
      (rg.start = x.node.range.start → x.node.range.stop ≤ rg.stop)) →
    ∀ b ∈ subsumption_walk dimOf (some d) (some rg) l,
      dimOf b.node.token = d → ¬ strictlyContains rg b.node.range := by
  induction l with
  | nil => intro d rg _ _ _ b hb; simp [subsumption_walk] at hb
  | cons x t ih =>
    intro d rg hsort hdim hrg b hb hbd
    rw [subsumption_walk] at hb
    by_cases hx : dimOf x.node.token = d
    · rw [hx] at hb
      rw [if_pos rfl] at hb
      by_cases hsub : subsumedBy (some rg) x = true
      · rw [if_pos hsub] at hb
        exact ih d rg hsort.of_cons
          (fun y hy => hdim y (List.mem_cons_of_mem _ hy))
          (fun y hy hyd => hrg y (List.mem_cons_of_mem _ hy) hyd) b hb hbd
      · rw [if_neg hsub] at hb
        rcases List.mem_cons.mp hb with rfl | hb2
        · intro hc
          exact hsub ((subsumedBy_some_iff rg b).mpr hc)
        · have hbt : b ∈ t := walk_subset dimOf t _ _ b hb2
          have hpair := List.pairwise_cons.mp hsort
          have hxb : rtLe dimOf prio x b := hpair.1 b hbt
          have hxbs : x.node.range.start ≤ b.node.range.start :=
            rtLe_start dimOf prio hxb (by rw [hx, hbd])
          have hnb : ¬ strictlyContains x.node.range b.node.range :=
            ih d x.node.range hpair.2
              (fun y hy => hdim y (List.mem_cons_of_mem _ hy))
              (fun y hy hyd => ⟨rtLe_start dimOf prio (hpair.1 y hy) (by rw [hx, hyd]),
                fun hse => rtLe_stop dimOf prio (hpair.1 y hy) (by rw [hx, hyd]) hse⟩)
              b hb2 hbd
          intro hcont
          have hns : ¬ strictlyContains rg x.node.range := fun hc =>
            hsub ((subsumedBy_some_iff rg x).mpr hc)
          have hA := (hrg x (List.mem_cons_self x t) hx).1
          unfold strictlyContains at hcont hnb hns
          omega
    · rw [if_neg (fun hEq => hx (Option.some.inj hEq).symm)] at hb
      rw [if_neg (by simp [subsumedBy_none])] at hb
      rcases List.mem_cons.mp hb with rfl | hb2
      · exact absurd hbd hx
      · exfalso
        have hbt : b ∈ t := walk_subset dimOf t _ _ b hb2
        have h1 : d.idx ≤ (dimOf x.node.token).idx := hdim x (List.mem_cons_self x t)
        have h3 : (dimOf x.node.token).idx ≤ (dimOf b.node.token).idx :=
          rtLe_dim dimOf prio ((List.pairwise_cons.mp hsort).1 b hbt)
        have h4 : (dimOf b.node.token).idx = d.idx := by rw [hbd]
        have h5 : d.idx ≠ (dimOf x.node.token).idx := fun hEq =>
          hx (Dimension.idx_inj hEq).symm
        omega

lemma keep_cons_pairwise (x : ResolvedToken Tok) (t : List (ResolvedToken Tok))
    (hsort : (x :: t).Pairwise (rtLe dimOf prio))
    (htail : (subsumption_walk dimOf (some (dimOf x.node.token)) (some x.node.range) t).Pairwise
      (fun a b => dimOf a.node.token = dimOf b.node.token →
        ¬ strictlyContains a.node.range b.node.range ∧
        ¬ strictlyContains b.node.range a.node.range)) :
    (x :: subsumption_walk dimOf (some (dimOf x.node.token)) (some x.node.range) t).Pairwise
      (fun a b => dimOf a.node.token = dimOf b.node.token →
        ¬ strictlyContains a.node.range b.node.range ∧
        ¬ strictlyContains b.node.range a.node.range) := by
  refine List.pairwise_cons.mpr ⟨?_, htail⟩
  intro b hb hdeq
  have hbt : b ∈ t := walk_subset dimOf t _ _ b hb
  have hpair := List.pairwise_cons.mp hsort
  have hxb := hpair.1 b hbt
  constructor
  · exact walk_no_strict dimOf prio t (dimOf x.node.token) x.node.range hpair.2
      (fun y hy => rtLe_dim dimOf prio (hpair.1 y hy))
      (fun y hy hyd => ⟨rtLe_start dimOf prio (hpair.1 y hy) hyd.symm,
        fun hse => rtLe_stop dimOf prio (hpair.1 y hy) hyd.symm hse⟩)
      b hb hdeq.symm
  · have hs : x.node.range.start ≤ b.node.range.start := rtLe_start dimOf prio hxb hdeq
    intro hcont
    have hse : x.node.range.start = b.node.range.start := by
      unfold strictlyContains at hcont; omega
    have hst : b.node.range.stop ≤ x.node.range.stop := rtLe_stop dimOf prio hxb hdeq hse
    unfold strictlyContains at hcont
    omega

lemma walk_pairwise (l : List (ResolvedToken Tok)) :
    ∀ ld lr,
    l.Pairwise (rtLe dimOf prio) →
    (∀ (d : Dimension) (rg : Range), ld = some d → lr = some rg →
      (∀ x ∈ l, d.idx ≤ (dimOf x.node.token).idx) ∧
      (∀ x ∈ l, dimOf x.node.token = d → rg.start ≤ x.node.range.start ∧
        (rg.start = x.node.range.start → x.node.range.stop ≤ rg.stop))) →
    (subsumption_walk dimOf ld lr l).Pairwise
      (fun a b => dimOf a.node.token = dimOf b.node.token →
        ¬ strictlyContains a.node.range b.node.range ∧
        ¬ strictlyContains b.node.range a.node.range) := by
  induction l with
  | nil => intro ld lr _ _; simp [subsumption_walk]
  | cons x t ih =>
    intro ld lr hsort hstate
    rw [subsumption_walk]
    have hpair := List.pairwise_cons.mp hsort
    by_cases hmatch : ld = some (dimOf x.node.token)
    · rw [if_pos hmatch]
      by_cases hsub : subsumedBy lr x = true
      · rw [if_pos hsub]
        apply ih _ _ hpair.2
        intro d rg hld hlr
        obtain rfl : dimOf x.node.token = d := Option.some.inj hld
        have hst := hstate _ rg hmatch hlr
        exact ⟨fun y hy => hst.1 y (List.mem_cons_of_mem _ hy),
          fun y hy hyd => hst.2 y (List.mem_cons_of_mem _ hy) hyd⟩
      · rw [if_neg hsub]
        refine keep_cons_pairwise dimOf prio x t hsort ?_
        apply ih _ _ hpair.2
        intro d rg hld hlr
        obtain rfl : dimOf x.node.token = d := Option.some.inj hld
        obtain rfl : x.node.range = rg := Option.some.inj hlr
        exact ⟨fun y hy => rtLe_dim dimOf prio (hpair.1 y hy),
          fun y hy hyd => ⟨rtLe_start dimOf prio (hpair.1 y hy) hyd.symm,
            fun hse => rtLe_stop dimOf prio (hpair.1 y hy) hyd.symm hse⟩⟩
    · rw [if_neg hmatch]
      rw [if_neg (by simp [subsumedBy_none])]
      refine keep_cons_pairwise dimOf prio x t hsort ?_
      apply ih _ _ hpair.2
      intro d rg hld hlr
      obtain rfl : dimOf x.node.token = d := Option.some.inj hld
      obtain rfl : x.node.range = rg := Option.some.inj hlr
      exact ⟨fun y hy => rtLe_dim dimOf prio (hpair.1 y hy),
        fun y hy hyd => ⟨rtLe_start dimOf prio (hpair.1 y hy) hyd.symm,
          fun hse => rtLe_stop dimOf prio (hpair.1 y hy) hyd.symm hse⟩⟩

end C1

/-- C1: `resolve_filtered` sorts resolved entities by
`(dimension, range.start ascending, range.end descending, priority
descending)` and, walking in that order, drops any entity strictly contained
in (but not equal to) the last kept span of the same dimension; consequently
no returned entity is strictly contained in another returned entity of the
same dimension. -/
theorem c1_subsumption_minimality {Tok : Type} (dimOf : Tok → Dimension)
    (resolveVal : Tok → Option (String × Bool)) (prio : String → Nat)
    (stash : List (Node Tok)) (a b : ResolvedToken Tok)
    (ha : a ∈ resolve_filtered dimOf resolveVal prio stash)
    (hb : b ∈ resolve_filtered dimOf resolveVal prio stash)
    (hd : dimOf a.node.token = dimOf b.node.token) :
    ¬ strictlyContains b.node.range a.node.range := by
  classical
  have hsorted : ((stash.filterMap (resolve_node resolveVal)).insertionSort
      (rtLe dimOf prio)).Pairwise (rtLe dimOf prio) := by
    haveI : IsTotal (ResolvedToken Tok) (rtLe dimOf prio) :=
      ⟨fun x y => by unfold rtLe quadLe rtKey; dsimp only; omega⟩
    haveI : IsTrans (ResolvedToken Tok) (rtLe dimOf prio) :=
      ⟨fun x y z hxy hyz => by
        unfold rtLe quadLe rtKey at hxy hyz ⊢; dsimp only at hxy hyz ⊢; omega⟩
    exact List.sorted_insertionSort _ _
  have hpw := walk_pairwise dimOf prio _ none none hsorted
    (fun _ _ hld _ => nomatch hld)
  unfold resolve_filtered at ha hb
  rcases eq_or_ne a b with rfl | hne
  · intro hc
    exact hc.2.2 ⟨rfl, rfl⟩
  · have hsymm : Symmetric (fun a b : ResolvedToken Tok =>
        dimOf a.node.token = dimOf b.node.token →
          ¬ strictlyContains a.node.range b.node.range ∧
          ¬ strictlyContains b.node.range a.node.range) := by
      intro u v huv hdvu
      obtain ⟨h1, h2⟩ := huv hdvu.symm
      exact ⟨h2, h1⟩
    exact (List.Pairwise.forall hsymm hpw ha hb hne hd).2

theorem c1_subsumption_minimality_witness :
    ¬ strictlyContains (Range.mk 0 3) (Range.mk 0 3) := by
  have hmem : (⟨⟨⟨0, 3⟩, (), "r", []⟩, "v", false⟩ : ResolvedToken Unit) ∈
      resolve_filtered (fun _ => Dimension.Time) (fun _ => some ("v", false))
        (fun _ => 0) [⟨⟨0, 3⟩, (), "r", []⟩] := by
    have h : resolve_filtered (fun _ : Unit => Dimension.Time)
        (fun _ => some ("v", false)) (fun _ => 0) [⟨⟨0, 3⟩, (), "r", []⟩] =
        [⟨⟨⟨0, 3⟩, (), "r", []⟩, "v", false⟩] := rfl
    rw [h]
    exact List.mem_singleton.mpr rfl
  exact c1_subsumption_minimality (fun _ => Dimension.Time)
    (fun _ => some ("v", false)) (fun _ => 0) _ _ _ hmem hmem rfl

end Astorion

namespace Astorion

section C2

variable {Tok : Type} {K : Type} [DecidableEq K]
variable (dimOf : Tok → Dimension) (kindKey : Tok → K)
variable (regexHits : Nat → List (Node Tok))
variable (unionEq : Node Tok → Node Tok → Bool)

lemma dedupNew_spec (nodes : List (Node Tok)) : ∀ (seen : List (NodeKey K)),
    (dedupNew dimOf kindKey seen nodes).2.length =
      seen.length + (dedupNew dimOf kindKey seen nodes).1.length ∧
    (seen.Nodup → (dedupNew dimOf kindKey seen nodes).2.Nodup) ∧
    (∀ k ∈ (dedupNew dimOf kindKey seen nodes).2,
      k ∈ seen ∨ ∃ nd ∈ nodes, node_key dimOf kindKey nd = k) := by
  induction nodes with
  | nil =>
    intro seen
    exact ⟨rfl, fun h => h, fun k hk => Or.inl hk⟩
  | cons node rest ih =>
    intro seen
    rw [dedupNew]
    by_cases hk : node_key dimOf kindKey node ∈ seen
    · rw [if_pos hk]
      refine ⟨(ih seen).1, (ih seen).2.1, fun k hkm => ?_⟩
      rcases (ih seen).2.2 k hkm with h | ⟨nd, hmem, hnd⟩
      · exact Or.inl h
      · exact Or.inr ⟨nd, List.mem_cons_of_mem _ hmem, hnd⟩
    · rw [if_neg hk]
      have ih' := ih (seen ++ [node_key dimOf kindKey node])
      rcases hdd : dedupNew dimOf kindKey (seen ++ [node_key dimOf kindKey node]) rest
        with ⟨ns, s2⟩
      rw [hdd] at ih'
      dsimp only at ih' ⊢
      refine ⟨?_, fun hs => ?_, fun k hkm => ?_⟩
      · have h1 := ih'.1
        simp only [List.length_append, List.length_cons, List.length_nil] at h1 ⊢
        omega
      · exact ih'.2.1 ((List.nodup_append_comm).mpr (List.nodup_cons.mpr ⟨hk, hs⟩))
      · rcases ih'.2.2 k hkm with h | ⟨nd, hmem, hnd⟩
        · rcases List.mem_append.mp h with h | h
          · exact Or.inl h
          · exact Or.inr ⟨node, List.mem_cons_self _ _,
              (List.mem_singleton.mp h).symm⟩
        · exact Or.inr ⟨nd, List.mem_cons_of_mem _ hmem, hnd⟩

lemma satLoop_total (all_rules : List (Rule Tok)) (U : List (NodeKey K))
    (hUall : ∀ (stash : List (Node Tok)) r, r ∈ all_rules →
      ∀ nd ∈ apply_rule_once regexHits stash r, node_key dimOf kindKey nd ∈ U) :
    ∀ (fuel : Nat) (st : SatState Tok K), st.seen.Nodup →
      (∀ k ∈ st.seen, k ∈ U) → U.length < fuel + st.seen.length →
      ∃ st', satLoop dimOf kindKey regexHits unionEq all_rules fuel st = some st' := by
  intro fuel
  induction fuel with
  | zero =>
    intro st hnd hsub hlen
    exfalso
    have hle : st.seen.length ≤ U.length :=
      List.Subperm.length_le (List.subperm_of_subset hnd hsub)
    omega
  | succ f ih =>
    intro st hnd hsub hlen
    simp only [satLoop]
    rcases hdd : dedupNew dimOf kindKey st.seen
        (apply_rules_once regexHits st.stash
          (all_rules.filter fun r => deps_satisfied dimOf st.stash r))
      with ⟨newNodes, seen2⟩
    have hspec := dedupNew_spec dimOf kindKey
      (apply_rules_once regexHits st.stash
        (all_rules.filter fun r => deps_satisfied dimOf st.stash r)) st.seen
    rw [hdd] at hspec
    dsimp only at hspec ⊢
    by_cases hni : newNodes.isEmpty
    · rw [if_pos hni]
      exact ⟨st, rfl⟩
    · rw [if_neg hni]
      apply ih
      · exact hspec.2.1 hnd
      · intro k hkm
        rcases hspec.2.2 k hkm with h | ⟨nd, hmem, hnd2⟩
        · exact hsub k h
        · rcases List.mem_flatMap.mp hmem with ⟨r, hr, hndr⟩
          exact hnd2 ▸ hUall st.stash r (List.mem_filter.mp hr).1 nd hndr
      · have hpos : 0 < newNodes.length :=
          List.length_pos.mpr (by simpa [List.isEmpty_iff] using hni)
        have h1 := hspec.1
        dsimp only at h1 ⊢
        omega

end C2

end Astorion

namespace Astorion

/-- C2: the parse call is total: whenever the key universe `U` bounds every
producible node key, any fuel beyond `U.length` reaches the saturation
fixpoint and `parse_entities` returns a well-formed entity list; and an input
on which no rule produces a match yields `some []` (the empty entity list)
at every fuel, never an error. -/
theorem c2_parse_total {Tok : Type} {K : Type} [DecidableEq K]
    (dimOf : Tok → Dimension) (kindKey : Tok → K)
    (regexHits : Nat → List (Node Tok)) (unionEq : Node Tok → Node Tok → Bool)
    (resolveVal : Tok → Option (String × Bool)) (prio : String → Nat)
    (input : List Char) (regex_rules predicate_rules : List (Rule Tok))
    (U : List (NodeKey K))
    (hU : ∀ (stash : List (Node Tok)) (r : Rule Tok),
      r ∈ regex_rules ∨ r ∈ predicate_rules →
      ∀ nd ∈ apply_rule_once regexHits stash r, node_key dimOf kindKey nd ∈ U) :
    (∀ fuel, U.length < fuel →
      ∃ entities, parse_entities dimOf kindKey regexHits unionEq resolveVal prio
        input regex_rules predicate_rules fuel = some entities) ∧
    (apply_rules_once regexHits [] regex_rules = [] →
      ∀ fuel, parse_entities dimOf kindKey regexHits unionEq resolveVal prio
        input regex_rules predicate_rules fuel = some []) := by
  constructor
  · intro fuel hfuel
    suffices h : ∃ st', saturate dimOf kindKey regexHits unionEq regex_rules
        predicate_rules fuel = some st' by
      rcases h with ⟨st', hst⟩
      exact ⟨_, by rw [parse_entities, run_tokens, hst]; rfl⟩
    simp only [saturate]
    rcases hdd : dedupNew dimOf kindKey []
        (apply_rules_once regexHits [] regex_rules) with ⟨new0, seen0⟩
    have hspec := dedupNew_spec dimOf kindKey
      (apply_rules_once regexHits [] regex_rules) []
    rw [hdd] at hspec
    dsimp only at hspec ⊢
    by_cases hni : new0.isEmpty
    · rw [if_pos hni]
      exact ⟨_, rfl⟩
    · rw [if_neg hni]
      apply satLoop_total dimOf kindKey regexHits unionEq _ U
      · intro stash r hr nd hnd
        exact hU stash r (List.mem_append.mp hr).symm nd hnd
      · exact hspec.2.1 List.nodup_nil
      · intro k hk
        rcases hspec.2.2 k hk with h | ⟨nd, hmem, hnd2⟩
        · exact absurd h (List.not_mem_nil k)
        · rcases List.mem_flatMap.mp hmem with ⟨r, hr, hndr⟩
          exact hnd2 ▸ hU [] r (Or.inl hr) nd hndr
      · dsimp only
        omega
  · intro hempty fuel
    simp only [parse_entities, run_tokens, saturate, hempty]
    rfl

theorem c2_parse_total_witness :
    ∃ entities, parse_entities (fun _ : Unit => Dimension.Time)
      (fun _ : Unit => (0 : Nat)) (fun _ => []) (fun _ _ => true)
      (fun _ => none) (fun _ => 0) [] [] [] 1 = some entities :=
  (c2_parse_total (fun _ : Unit => Dimension.Time) (fun _ : Unit => (0 : Nat))
    (fun _ => []) (fun _ _ => true) (fun _ => none) (fun _ => 0) [] [] [] []
    (fun stash r hr => by rcases hr with h | h <;> exact absurd h (List.not_mem_nil r))).1
    1 (by decide)

end Astorion

namespace Astorion

section C8

variable {Tok : Type} {K : Type} [DecidableEq K]
variable (dimOf : Tok → Dimension) (kindKey : Tok → K)
variable (regexHits : Nat → List (Node Tok))
variable (unionEq : Node Tok → Node Tok → Bool)
variable (prio : String → Nat)

lemma lookup_item_ok (len : Nat) (stash : List (Node Tok))
    (hRegex : ∀ id, ∀ nd ∈ regexHits id, NodeInRange len nd)
    (hStash : ∀ nd ∈ stash, NodeInRange len nd)
    (pat : Pattern Tok) (pos : Nat) :
    ∀ n ∈ lookup_item regexHits stash pat pos,
      NodeInRange len n ∧ n.range.start = pos := by
  intro n hn
  cases pat with
  | regex id =>
    rcases List.mem_filter.mp hn with ⟨hmem, hstart⟩
    exact ⟨hRegex id n hmem, by simpa using hstart⟩
  | pred f =>
    rcases List.mem_filter.mp hn with ⟨hmem, hcond⟩
    have hmem' : n ∈ stash :=
      (List.perm_insertionSort _ _).mem_iff.mp hmem
    refine ⟨hStash n hmem', ?_⟩
    simpa using (of_decide_eq_true hcond).1

lemma lookup_anywhere_ok (len : Nat) (stash : List (Node Tok))
    (hRegex : ∀ id, ∀ nd ∈ regexHits id, NodeInRange len nd)
    (hStash : ∀ nd ∈ stash, NodeInRange len nd)
    (pat : Pattern Tok) :
    ∀ n ∈ lookup_item_anywhere regexHits stash pat, NodeInRange len n := by
  intro n hn
  cases pat with
  | regex id => exact hRegex id n hn
  | pred f =>
    rcases List.mem_filter.mp hn with ⟨hmem, _⟩
    exact hStash n ((List.perm_insertionSort _ _).mem_iff.mp hmem)

lemma matchRest_ok (len : Nat) (stash : List (Node Tok))
    (hRegex : ∀ id, ∀ nd ∈ regexHits id, NodeInRange len nd)
    (hStash : ∀ nd ∈ stash, NodeInRange len nd) :
    ∀ (pats : List (Pattern Tok)) (pos : Nat) (route : List (Node Tok)),
      route ≠ [] → (∀ nd ∈ route, NodeInRange len nd) →
      (∀ f, route.head? = some f → f.range.start ≤ pos) →
      (∀ l, route.getLast? = some l → l.range.stop = pos) →
      ∀ r ∈ matchRest regexHits stash pats pos route,
        r ≠ [] ∧ (∀ nd ∈ r, NodeInRange len nd) ∧
        (∀ f l, r.head? = some f → r.getLast? = some l →
          f.range.start ≤ l.range.stop) := by
  intro pats
  induction pats with
  | nil =>
    intro pos route hne hall hhead hlast r hr
    rw [matchRest, List.mem_singleton] at hr
    subst hr
    refine ⟨hne, hall, fun f l hf hl => ?_⟩
    rw [hlast l hl]
    exact hhead f hf
  | cons pat rest ih =>
    intro pos route hne hall hhead hlast r hr
    rw [matchRest] at hr
    rcases List.mem_flatMap.mp hr with ⟨node, hnode, hr2⟩
    obtain ⟨hnR, hnS⟩ := lookup_item_ok regexHits len stash hRegex hStash
      pat pos node hnode
    rcases route with _ | ⟨x, t⟩
    · exact absurd rfl hne
    refine ih node.range.stop (x :: t ++ [node]) (by simp) ?_ ?_ ?_ r hr2
    · intro nd hnd
      rcases List.mem_append.mp hnd with h | h
      · exact hall nd h
      · rw [List.mem_singleton.mp h]
        exact hnR
    · intro f hf
      have hx : x = f := by
        simpa using hf
      have h1 : x.range.start ≤ pos := hhead x rfl
      have h2 : node.range.start ≤ node.range.stop := hnR.1
      rw [← hx]
      omega
    · intro l hl
      have : l = node := by
        rw [List.getLast?_concat] at hl
        exact (Option.some.inj hl).symm
      rw [this]

lemma produce_node_ok (len : Nat) (rule : Rule Tok) (route : List (Node Tok))
    (hall : ∀ nd ∈ route, NodeInRange len nd)
    (hfl : ∀ f l, route.head? = some f → route.getLast? = some l →
      f.range.start ≤ l.range.stop) :
    ∀ nd, produce_node rule route = some nd → NodeInRange len nd := by
  intro nd hnd
  rw [produce_node] at hnd
  rcases hp : rule.production (route.map (fun x => x.token)) with _ | tok
  · rw [hp] at hnd
    exact Option.noConfusion hnd
  rw [hp] at hnd
  rcases hh : route.head? with _ | f
  · rw [hh] at hnd
    exact Option.noConfusion hnd
  rcases hl : route.getLast? with _ | l
  · rw [hh, hl] at hnd
    exact Option.noConfusion hnd
  rw [hh, hl] at hnd
  obtain rfl : _ = nd := Option.some.inj hnd
  refine ⟨hfl f l hh hl, ?_⟩
  have hlm : l ∈ route := by
    rcases List.mem_getLast?_eq_getLast
        (show l ∈ route.getLast? by rw [hl]; rfl) with ⟨hne2, heq⟩
    rw [heq]
    exact List.getLast_mem hne2
  exact (hall l hlm).2

lemma apply_rule_once_ok (len : Nat) (stash : List (Node Tok))
    (hRegex : ∀ id, ∀ nd ∈ regexHits id, NodeInRange len nd)
    (hStash : ∀ nd ∈ stash, NodeInRange len nd) (rule : Rule Tok) :
    ∀ nd ∈ apply_rule_once regexHits stash rule, NodeInRange len nd := by
  intro nd hnd
  rw [apply_rule_once] at hnd
  rcases hp : rule.pattern with _ | ⟨p0, rest⟩
  · rw [hp] at hnd
    exact absurd hnd (List.not_mem_nil nd)
  rw [hp] at hnd
  rcases List.mem_filterMap.mp hnd with ⟨route, hroute, hprod⟩
  rcases List.mem_flatMap.mp hroute with ⟨node, hnode, hr2⟩
  have hnR : NodeInRange len node :=
    lookup_anywhere_ok regexHits len stash hRegex hStash p0 node hnode
  have hrok := matchRest_ok regexHits len stash hRegex hStash rest
    node.range.stop [node] (by simp) (by simpa using hnR)
    (fun f hf => by simpa using (Option.some.inj hf) ▸ hnR.1)
    (fun l hl => by simpa using (Option.some.inj hl) ▸ rfl)
    route hr2
  exact produce_node_ok len rule route hrok.2.1 hrok.2.2 nd hprod

lemma apply_rules_once_ok (len : Nat) (stash : List (Node Tok))
    (hRegex : ∀ id, ∀ nd ∈ regexHits id, NodeInRange len nd)
    (hStash : ∀ nd ∈ stash, NodeInRange len nd) (rule_set : List (Rule Tok)) :
    ∀ nd ∈ apply_rules_once regexHits stash rule_set, NodeInRange len nd := by
  intro nd hnd
  rcases List.mem_flatMap.mp hnd with ⟨r, _, hndr⟩
  exact apply_rule_once_ok regexHits len stash hRegex hStash r nd hndr

lemma dedupNew_fst_sub (nodes : List (Node Tok)) :
    ∀ (seen : List (NodeKey K)), ∀ nd ∈ (dedupNew dimOf kindKey seen nodes).1,
      nd ∈ nodes := by
  induction nodes with
  | nil => intro seen nd hnd; exact absurd hnd (List.not_mem_nil nd)
  | cons node rest ih =>
    intro seen nd hnd
    rw [dedupNew] at hnd
    by_cases hk : node_key dimOf kindKey node ∈ seen
    · rw [if_pos hk] at hnd
      exact List.mem_cons_of_mem _ (ih seen nd hnd)
    · rw [if_neg hk] at hnd
      rcases hdd : dedupNew dimOf kindKey (seen ++ [node_key dimOf kindKey node]) rest
        with ⟨ns, s2⟩
      rw [hdd] at hnd
      dsimp only at hnd
      rcases List.mem_cons.mp hnd with rfl | h
      · exact List.mem_cons_self _ _
      · have := ih (seen ++ [node_key dimOf kindKey node]) nd
        rw [hdd] at this
        exact List.mem_cons_of_mem _ (this h)

lemma unionNodes_sub (a b : List (Node Tok)) :
    ∀ nd ∈ unionNodes unionEq a b, nd ∈ a ∨ nd ∈ b := by
  intro nd hnd
  rw [unionNodes] at hnd
  have h1 : nd ∈ (a ++ b).insertionSort posLe :=
    (List.destutter_sublist _ _).subset hnd
  exact List.mem_append.mp ((List.perm_insertionSort _ _).mem_iff.mp h1)

lemma satLoop_stash_ok (len : Nat) (all_rules : List (Rule Tok))
    (hRegex : ∀ id, ∀ nd ∈ regexHits id, NodeInRange len nd) :
    ∀ (fuel : Nat) (st st' : SatState Tok K),
      satLoop dimOf kindKey regexHits unionEq all_rules fuel st = some st' →
      (∀ nd ∈ st.stash, NodeInRange len nd) →
      ∀ nd ∈ st'.stash, NodeInRange len nd := by
  intro fuel
  induction fuel with
  | zero => intro st st' h; exact Option.noConfusion h
  | succ f ih =>
    intro st st' h hstash
    simp only [satLoop] at h
    rcases hdd : dedupNew dimOf kindKey st.seen
        (apply_rules_once regexHits st.stash
          (all_rules.filter fun r => deps_satisfied dimOf st.stash r))
      with ⟨newNodes, seen2⟩
    rw [hdd] at h
    dsimp only at h
    by_cases hni : newNodes.isEmpty
    · rw [if_pos hni] at h
      obtain rfl : st = st' := Option.some.inj h
      exact hstash
    · rw [if_neg hni] at h
      refine ih _ st' h ?_
      intro nd hnd
      dsimp only at hnd
      rcases unionNodes_sub unionEq st.stash newNodes nd hnd with h2 | h2
      · exact hstash nd h2
      · have hsub := dedupNew_fst_sub dimOf kindKey
          (apply_rules_once regexHits st.stash
            (all_rules.filter fun r => deps_satisfied dimOf st.stash r)) st.seen nd
        rw [hdd] at hsub
        exact apply_rules_once_ok regexHits len st.stash hRegex hstash _ nd (hsub h2)

lemma saturate_stash_ok (len : Nat) (regex_rules predicate_rules : List (Rule Tok))
    (hRegex : ∀ id, ∀ nd ∈ regexHits id, NodeInRange len nd) (fuel : Nat)
    (st' : SatState Tok K)
    (h : saturate dimOf kindKey regexHits unionEq regex_rules predicate_rules fuel =
      some st') :
    ∀ nd ∈ st'.stash, NodeInRange len nd := by
  simp only [saturate] at h
  rcases hdd : dedupNew dimOf kindKey []
      (apply_rules_once regexHits [] regex_rules) with ⟨new0, seen0⟩
  rw [hdd] at h
  dsimp only at h
  by_cases hni : new0.isEmpty
  · rw [if_pos hni] at h
    obtain rfl : _ = st' := Option.some.inj h
    intro nd hnd
    exact absurd hnd (List.not_mem_nil nd)
  · rw [if_neg hni] at h
    refine satLoop_stash_ok dimOf kindKey regexHits unionEq len _ hRegex fuel _ st' h ?_
    intro nd hnd
    dsimp only at hnd
    rcases unionNodes_sub unionEq [] new0 nd hnd with h2 | h2
    · exact absurd h2 (List.not_mem_nil nd)
    · have hsub := dedupNew_fst_sub dimOf kindKey
        (apply_rules_once regexHits [] regex_rules) [] nd
      rw [hdd] at hsub
      exact apply_rules_once_ok regexHits len [] hRegex
        (fun x hx => absurd hx (List.not_mem_nil x)) _ nd (hsub h2)

lemma resolve_filtered_node_mem (resolveVal : Tok → Option (String × Bool))
    (stash : List (Node Tok)) (rt : ResolvedToken Tok)
    (hrt : rt ∈ resolve_filtered dimOf resolveVal prio stash) :
    rt.node ∈ stash := by
  rw [resolve_filtered] at hrt
  have h1 := walk_subset dimOf _ _ _ rt hrt
  have h2 : rt ∈ stash.filterMap (resolve_node resolveVal) :=
    (List.perm_insertionSort _ _).mem_iff.mp h1
  rcases List.mem_filterMap.mp h2 with ⟨n, hn, hres⟩
  rw [resolve_node] at hres
  rcases hv : resolveVal n.token with _ | vl
  · rw [hv] at hres
    exact Option.noConfusion hres
  · rw [hv] at hres
    obtain rfl : _ = rt := Option.some.inj hres
    exact hn

end C8

end Astorion

namespace Astorion

/-- C8: every entity returned by a parse call has a well-formed byte span
(`0 ≤ start ≤ stop ≤ len(input)`, the lower bound being inherent to `Nat`)
and its body is exactly the input's `[start..stop)` slice, provided the raw
regex matches lie inside the input. -/
theorem c8_span_validity {Tok : Type} {K : Type} [DecidableEq K]
    (dimOf : Tok → Dimension) (kindKey : Tok → K)
    (regexHits : Nat → List (Node Tok)) (unionEq : Node Tok → Node Tok → Bool)
    (resolveVal : Tok → Option (String × Bool)) (prio : String → Nat)
    (input : List Char) (regex_rules predicate_rules : List (Rule Tok))
    (fuel : Nat) (entities : List Entity)
    (hRegex : ∀ id, ∀ nd ∈ regexHits id, NodeInRange input.length nd)
    (hrun : parse_entities dimOf kindKey regexHits unionEq resolveVal prio
      input regex_rules predicate_rules fuel = some entities) :
    ∀ ent ∈ entities, ent.start ≤ ent.stop ∧ ent.stop ≤ input.length ∧
      ent.body = (input.drop ent.start).take (ent.stop - ent.start) := by
  intro ent hent
  rw [parse_entities, run_tokens] at hrun
  rcases hsat : saturate dimOf kindKey regexHits unionEq regex_rules
      predicate_rules fuel with _ | st'
  · rw [hsat] at hrun
    exact Option.noConfusion hrun
  rw [hsat] at hrun
  simp only [Option.map_some'] at hrun
  obtain rfl : _ = entities := Option.some.inj hrun
  rcases List.mem_map.mp hent with ⟨rt, hrt, rfl⟩
  have hnode := resolve_filtered_node_mem dimOf prio resolveVal st'.stash rt hrt
  have hnR := saturate_stash_ok dimOf kindKey regexHits unionEq input.length
    regex_rules predicate_rules hRegex fuel st' hsat rt.node hnode
  refine ⟨hnR.1, hnR.2, ?_⟩
  simp only [resolved_to_entity]
  rw [if_pos ⟨hnR.1, hnR.2⟩]

theorem c8_span_validity_witness :
    (Entity.mk "time" ['a', 'b', 'c'] "v" 0 3 false "r").start ≤
        (Entity.mk "time" ['a', 'b', 'c'] "v" 0 3 false "r").stop ∧
      (Entity.mk "time" ['a', 'b', 'c'] "v" 0 3 false "r").stop ≤
        (['a', 'b', 'c'] : List Char).length ∧
      (Entity.mk "time" ['a', 'b', 'c'] "v" 0 3 false "r").body =
        ((['a', 'b', 'c'] : List Char).drop
            (Entity.mk "time" ['a', 'b', 'c'] "v" 0 3 false "r").start).take
          ((Entity.mk "time" ['a', 'b', 'c'] "v" 0 3 false "r").stop -
            (Entity.mk "time" ['a', 'b', 'c'] "v" 0 3 false "r").start) :=
  c8_span_validity (fun _ : Unit => Dimension.Time) (fun _ : Unit => (0 : Nat))
    (fun _ => [⟨⟨0, 3⟩, (), "re", []⟩]) (fun _ _ => true)
    (fun _ => some ("v", false)) (fun _ => 0) ['a', 'b', 'c']
    [⟨"r", [.regex 0], fun _ => some (), [], 0⟩] [] 1
    [Entity.mk "time" ['a', 'b', 'c'] "v" 0 3 false "r"]
    (fun id nd h => by
      rw [List.mem_singleton] at h
      subst h
      exact ⟨by decide, by decide⟩)
    (by rfl)
    (Entity.mk "time" ['a', 'b', 'c'] "v" 0 3 false "r")
    (List.mem_singleton.mpr rfl)

end Astorion
